import Mathlib

/-!
Shallow embedding of the AutoFix API backend (src/server.js): the multi-supplier
search endpoint, the exchange-rate provider, the per-supplier session caches,
the Stimo HTML-scraping adapter, the Thunder GWT-RPC adapter, and the
per-supplier result normalization/merge pipeline.

JavaScript numbers are embedded as exact rationals (ℚ); every place the source
relies on JavaScript truthiness (`x || d`, `if (x)`) is embedded by an explicit
`jsOr…`/truthiness function.  Network responses are inputs to the embedded
functions (one constructor per observable outcome of a fetch), so each embedded
function is a pure function of the module-level cache state, the clock, and the
upstream responses.
-/

namespace AutoFix

/-! ### JavaScript primitives -/

/-- `Math.round(x * 100) / 100`, the 2-decimal rounding used throughout the
source.  JavaScript `Math.round` is `⌊x + 1/2⌋` (half-up, towards +∞). -/
def jsRound2 (x : ℚ) : ℚ := (⌊x * 100 + 1/2⌋ : ℚ) / 100

/-- `x || d` for a number that is present: `0` (and `NaN`) are falsy. -/
def jsOrQ (x d : ℚ) : ℚ := if x = 0 then d else x

/-- `x || d` for a possibly-absent number field (absent and `0` are falsy). -/
def jsOrNum (x : Option ℚ) (d : ℚ) : ℚ :=
  match x with
  | none => d
  | some v => if v = 0 then d else v

/-- `x || d` for a possibly-absent integer field. -/
def jsOrInt (x : Option ℤ) (d : ℤ) : ℤ :=
  match x with
  | none => d
  | some v => if v = 0 then d else v

/-- `x || d` for an integer that is present. -/
def jsOrI (x d : ℤ) : ℤ := if x = 0 then d else x

/-- `x || d` for a string that is present: `""` is falsy. -/
def jsOrS (x d : String) : String := if x = "" then d else x

/-- `x || d` for a possibly-absent string field. -/
def jsOrStr (x : Option String) (d : String) : String :=
  match x with
  | none => d
  | some s => if s = "" then d else s

/-- `x || d` for a possibly-null day count (`null` and `0` are falsy). -/
def jsOrDays (x : Option ℕ) (d : ℕ) : ℕ :=
  match x with
  | none => d
  | some v => if v = 0 then d else v

/-- The character class of the JavaScript regex `\s`. -/
def isJsWs (c : Char) : Bool :=
  c = ' ' || c = '\t' || c = '\n' || c = '\r' || c = '\x0b' || c = '\x0c' ||
  c = '\u00A0' || c = '\u1680' || ('\u2000' ≤ c && c ≤ '\u200A') ||
  c = '\u2028' || c = '\u2029' || c = '\u202F' || c = '\u205F' ||
  c = '\u3000' || c = '\uFEFF'

/-- `String.prototype.trim`: strip whitespace from both ends. -/
def jsTrim (s : String) : String :=
  String.mk (((s.data.dropWhile isJsWs).reverse.dropWhile isJsWs).reverse)

def isAsciiDigit (c : Char) : Bool := '0' ≤ c && c ≤ '9'

def isAsciiAlpha (c : Char) : Bool := ('A' ≤ c && c ≤ 'Z') || ('a' ≤ c && c ≤ 'z')

/-- Lower-casing as done by `String.prototype.toLowerCase` on the alphabets that
occur in this program (ASCII and Cyrillic). -/
def jsLowerChar (c : Char) : Char :=
  if 'A' ≤ c ∧ c ≤ 'Z' then Char.ofNat (c.toNat + 32)
  else if 0x410 ≤ c.toNat ∧ c.toNat ≤ 0x42f then Char.ofNat (c.toNat + 0x20)
  else if 0x400 ≤ c.toNat ∧ c.toNat ≤ 0x40f then Char.ofNat (c.toNat + 0x50)
  else c

/-- Upper-casing as done by `String.prototype.toUpperCase` on the alphabets that
occur in this program. -/
def jsUpperChar (c : Char) : Char :=
  if 'a' ≤ c ∧ c ≤ 'z' then Char.ofNat (c.toNat - 32)
  else if 0x430 ≤ c.toNat ∧ c.toNat ≤ 0x44f then Char.ofNat (c.toNat - 0x20)
  else if 0x450 ≤ c.toNat ∧ c.toNat ≤ 0x45f then Char.ofNat (c.toNat - 0x50)
  else c

def jsToLower (s : String) : String := String.mk (s.data.map jsLowerChar)

def jsToUpper (s : String) : String := String.mk (s.data.map jsUpperChar)

/-- Bool-valued infix test on lists (`needle` occurs contiguously in `hay`). -/
def listInfix (needle : List Char) : List Char → Bool
  | [] => needle.isEmpty
  | c :: rest => needle.isPrefixOf (c :: rest) || listInfix needle rest

/-- `String.prototype.includes`. -/
def jsIncludes (s sub : String) : Bool := listInfix sub.data s.data

/-- `parseInt` on a run of ASCII digits. -/
def digitsToNat (l : List Char) : ℕ :=
  l.foldl (fun n c => n * 10 + (c.toNat - 48)) 0

/-- Split a list at its maximal ASCII-digit prefix. -/
def takeDigits (l : List Char) : List Char × List Char :=
  (l.takeWhile isAsciiDigit, l.dropWhile isAsciiDigit)

/-- `parseFloat` on the decimal/exponent forms that occur in this program
(`none` plays the role of `NaN`).  An optional sign, then digits with an
optional fractional part (at least one digit overall), then an optional
exponent; trailing garbage is ignored, exactly as `parseFloat` does. -/
def jsParseFloat (s : String) : Option ℚ :=
  let l := s.data.dropWhile isJsWs
  let (sgn, l1) : ℚ × List Char :=
    match l with
    | '-' :: r => (-1, r)
    | '+' :: r => (1, r)
    | _ => (1, l)
  let (intPart, r1) := takeDigits l1
  let (fracPart, r2) :=
    match r1 with
    | '.' :: r => takeDigits r
    | _ => ([], r1)
  if intPart.isEmpty ∧ fracPart.isEmpty then none
  else
    let mantissa : ℚ :=
      (digitsToNat intPart : ℚ) + (digitsToNat fracPart : ℚ) / (10 ^ fracPart.length : ℚ)
    let expVal : ℤ :=
      match r2 with
      | 'e' :: r => expDigits r
      | 'E' :: r => expDigits r
      | _ => 0
    some (sgn * mantissa * (10 : ℚ) ^ expVal)
where
  expDigits (r : List Char) : ℤ :=
    match r with
    | '-' :: r' => let (d, _) := takeDigits r'; if d.isEmpty then 0 else -(digitsToNat d : ℤ)
    | '+' :: r' => let (d, _) := takeDigits r'; if d.isEmpty then 0 else (digitsToNat d : ℤ)
    | _ => let (d, _) := takeDigits r; if d.isEmpty then 0 else (digitsToNat d : ℤ)

/-- `parseFloat` with `NaN` collapsed to `0` (used where the source guards with
`isNaN`). -/
def jsParseFloatD (s : String) : ℚ := (jsParseFloat s).getD 0

/-- `needle` is a prefix of `hay` (character-list based). -/
def strStarts (s p : String) : Bool := p.data.isPrefixOf s.data

/-- `String.prototype.split` with a non-empty separator string.  The fuel is
the length of the scanned list (each step consumes at least one character, so
the default clause is never reached from `jsSplitOn`); structural recursion on
the fuel keeps the function kernel-reducible. -/
def listSplitOnF (sep : List Char) : ℕ → List Char → List Char → List (List Char)
  | _, [], acc => [acc.reverse]
  | 0, l, acc => [acc.reverse ++ l]
  | fuel + 1, c :: rest, acc =>
      if sep.isPrefixOf (c :: rest) then
        acc.reverse :: listSplitOnF sep fuel (rest.drop (sep.length - 1)) []
      else listSplitOnF sep fuel rest (c :: acc)

def jsSplitOn (s sep : String) : List String :=
  if sep.data = [] then [s]
  else (listSplitOnF sep.data s.data.length s.data []).map String.mk

/-- Replace every (non-overlapping, leftmost-first) occurrence of the
non-empty pattern (fuelled like `listSplitOnF`). -/
def listReplaceAllF (pat rep : List Char) : ℕ → List Char → List Char
  | _, [] => []
  | 0, l => l
  | fuel + 1, c :: rest =>
      if pat.isPrefixOf (c :: rest) then
        rep ++ listReplaceAllF pat rep fuel (rest.drop (pat.length - 1))
      else c :: listReplaceAllF pat rep fuel rest

def jsReplaceAll (s pat rep : String) : String :=
  if pat.data = [] then s
  else String.mk (listReplaceAllF pat.data rep.data s.data.length s.data)

/-- `s.split(';')[0]`: the part before the first `;` (the whole string when
there is none). -/
def firstSemiPart (s : String) : String := (jsSplitOn s ";").headD s

/-- Character class of the part-number cleanup regex `[\s\-\.\/\\,;:_]+`. -/
def isPnSep (c : Char) : Bool :=
  isJsWs c || c = '-' || c = '.' || c = '/' || c = '\\' || c = ',' ||
  c = ';' || c = ':' || c = '_'

/-- `partNumber.replace(/[\s\-\.\/\\,;:_]+/g, '').toUpperCase()`. -/
def cleanPN (s : String) : String :=
  jsToUpper (String.mk (s.data.filter (fun c => !isPnSep c)))

/-! ### Exchange rates (`getExchangeRates`, src/server.js lines 37-57) -/

structure Rates where
  jpyToEur : ℚ
  usdToEur : ℚ
deriving Repr, DecidableEq

/-- The hardcoded fallback snapshot `{ jpyToEur: 0.0061, usdToEur: 0.92 }`. -/
def fallbackRates : Rates := ⟨61/10000, 92/100⟩

/-- The module-level cache `cachedRates` / `ratesExpiry`. -/
structure RatesSt where
  cachedRates : Option Rates := none
  ratesExpiry : Option ℚ := none
deriving Repr, DecidableEq

/-- Observable outcome of the FX fetch: the fetch (or `.json()`) threw, the
body had no `rates` field, or it carried `rates.JPY` / `rates.USD`. -/
inductive FxOutcome where
  | fetchError
  | noRatesField
  | gotRates (jpy usd : ℚ)
deriving Repr, DecidableEq

/-- The cache-freshness test `cachedRates && ratesExpiry && Date.now() < ratesExpiry`
(a numeric expiry of `0` is falsy). -/
def ratesCacheValid (st : RatesSt) (now : ℚ) : Bool :=
  match st.cachedRates, st.ratesExpiry with
  | some _, some e => decide (e ≠ 0 ∧ now < e)
  | _, _ => false

/-- `getExchangeRates()`: returns the fresh cache if valid; otherwise fetches,
caching `1/JPY`, `1/USD` for 12 hours on success; on failure (or a body without
`rates`) returns `cachedRates || fallback` without touching the cache. -/
def getExchangeRates (st : RatesSt) (now : ℚ) (fx : FxOutcome) : Rates × RatesSt :=
  if ratesCacheValid st now then
    (st.cachedRates.getD fallbackRates, st)
  else
    match fx with
    | .gotRates jpy usd =>
        let fresh : Rates := ⟨1 / jpy, 1 / usd⟩
        (fresh, ⟨some fresh, some (now + 12 * 60 * 60 * 1000)⟩)
    | _ => (st.cachedRates.getD fallbackRates, st)

/-! ### Common normalized result record (the object shape pushed into
`allResults` by the five per-supplier transforms in the endpoint) -/

structure ResultItem where
  partNumber : String := ""
  description : String := ""
  brand : String := ""
  priceEUR : ℚ := 0
  calculatedPrice : ℚ := 0
  shippingCost : Option ℚ := none
  originalPriceJPY : Option ℚ := none
  originalPriceUSD : Option ℚ := none
  stock : ℚ := 0
  stockStatus : String := ""
  deliveryDays : String := ""
  weight : Option ℚ := none
  source : String := ""
  supplierName : String := ""
  thunderOption : Option String := none
deriving Repr, DecidableEq

/-! ### Impex transform (endpoint lines 573-597) -/

/-- A raw `original_parts` element of the Impex JSON response. -/
structure ImpexPart where
  price_yen : Option ℚ := none
  mark : Option String := none
  part : Option String := none
  part_no_raw : Option String := none
  name_eng : Option String := none
  name : Option String := none
  is_discontinued : Bool := false
  weight : Option ℚ := none
deriving Repr, DecidableEq

def impexMajorBrands : List String := ["HONDA", "NISSAN", "MITSUBISHI", "SUBARU", "TOYOTA"]

def impexTransform (rates : Rates) (part : ImpexPart) : ResultItem :=
  let priceJPY := jsOrNum part.price_yen 0
  let priceEUR := priceJPY * rates.jpyToEur
  let deliveryPrice := priceEUR * (147/100)
  let brand := jsOrStr part.mark ""
  let rawPN := jsOrStr part.part (jsOrStr part.part_no_raw "")
  let upperBrand := jsToUpper brand
  let formattedPN := if impexMajorBrands.contains upperBrand then cleanPN rawPN else rawPN
  { partNumber := formattedPN
    description := jsOrStr part.name_eng (jsOrStr part.name "")
    originalPriceJPY := some priceJPY
    priceEUR := jsRound2 priceEUR
    calculatedPrice := jsRound2 deliveryPrice
    stock := if part.is_discontinued then 0 else 1
    stockStatus := if part.is_discontinued then "out_of_stock" else "in_stock"
    brand := brand
    deliveryDays := "20-25 дни"
    weight := some (jsOrNum part.weight 0)
    source := "impex"
    supplierName := "Impex Japan" }

/-! ### APEC transform (endpoint lines 600-624) -/

structure ApecItem where
  Price : Option ℚ := none
  WeightPhysical : Option ℚ := none
  PartNumber : String := ""
  PartDescription : Option String := none
  QtyInStock : Option ℤ := none
  Qty : Option ℤ := none
  Brand : String := ""
  DeliveryDays : Option ℤ := none
deriving Repr, DecidableEq

def APEC_DUTY : ℚ := 5/100
def APEC_VAT : ℚ := 20/100
def APEC_SHIPPING_PER_KG : ℚ := 12

def apecTransform (rates : Rates) (item : ApecItem) : ResultItem :=
  let priceUSD := jsOrNum item.Price 0
  let weightKg := jsOrNum item.WeightPhysical (1/2)
  let priceEUR := priceUSD * rates.usdToEur
  let priceWithDuty := priceEUR * (1 + APEC_DUTY)
  let shippingCost := weightKg * APEC_SHIPPING_PER_KG
  let finalPrice := (priceWithDuty + shippingCost) * (1 + APEC_VAT)
  let qty := jsOrInt item.QtyInStock (jsOrInt item.Qty 0)
  { partNumber := item.PartNumber
    description := jsOrStr item.PartDescription "Auto part"
    originalPriceUSD := some priceUSD
    priceEUR := jsRound2 priceEUR
    calculatedPrice := jsRound2 finalPrice
    shippingCost := some (jsRound2 shippingCost)
    stock := (qty : ℚ)
    stockStatus := if qty > 0 then "in_stock" else "on_order"
    brand := item.Brand
    deliveryDays := toString (jsOrInt item.DeliveryDays 30 + 10) ++ " дни"
    weight := some weightKg
    source := "apec"
    supplierName := "APEC Dubai" }

/-! ### Emex transform and deduplication (endpoint lines 627-656) -/

/-- A raw item as built by `searchEmex` from the SOAP response. -/
structure EmexItem where
  make : String := ""
  makeName : String := ""
  number : String := ""
  name : String := ""
  price : ℚ := 0
  days : ℤ := 0
  qty : ℤ := 0
  weight : ℚ := 0
  percentSupplied : ℤ := 0
deriving Repr, DecidableEq

/-- Association-list model of a JavaScript `Map`: `set` overwrites in place,
new keys append (insertion order is preserved). -/
def setAssoc {α : Type} : List (String × α) → String → α → List (String × α)
  | [], k, v => [(k, v)]
  | (k', v') :: rest, k, v =>
      if k' = k then (k', v) :: rest else (k', v') :: setAssoc rest k v

def getAssoc {α : Type} : List (String × α) → String → Option α
  | [], _ => none
  | (k', v') :: rest, k => if k' = k then some v' else getAssoc rest k

def emexKey (i : EmexItem) : String := i.make ++ "_" ++ i.number

/-- The `emexBest` deduplication map: keep, per `make_number` key, the item
with the lowest price (ties keep the earliest), in key-insertion order. -/
def emexBestFold (m : List (String × EmexItem)) (it : EmexItem) : List (String × EmexItem) :=
  match getAssoc m (emexKey it) with
  | none => setAssoc m (emexKey it) it
  | some ex => if it.price < ex.price then setAssoc m (emexKey it) it else m

def emexBest (items : List EmexItem) : List EmexItem :=
  (items.foldl emexBestFold []).map (·.2)

def emexTransform (rates : Rates) (item : EmexItem) : ResultItem :=
  let priceUSD := jsOrQ item.price 0
  let weightKg := jsOrQ item.weight (1/2)
  let priceEUR := priceUSD * rates.usdToEur
  let priceWithDuty := priceEUR * (1 + APEC_DUTY)
  let shippingCost := weightKg * APEC_SHIPPING_PER_KG
  let finalPrice := (priceWithDuty + shippingCost) * (1 + APEC_VAT)
  { partNumber := item.number
    description := jsOrS item.name "Auto part"
    originalPriceUSD := some priceUSD
    priceEUR := jsRound2 priceEUR
    calculatedPrice := jsRound2 finalPrice
    stock := (jsOrI item.qty 0 : ℚ)
    stockStatus := if jsOrI item.qty 0 > 0 then "in_stock" else "on_order"
    brand := jsOrS item.makeName item.make
    deliveryDays := toString (jsOrI item.days 0 + 15) ++ "-" ++
      toString (jsOrI item.days 0 + 22) ++ " дни"
    weight := some weightKg
    source := "emex"
    supplierName := "Emex Dubai" }

def emexNormalize (rates : Rates) (items : List EmexItem) : List ResultItem :=
  (emexBest items).map (emexTransform rates)

/-! ### APEC token cache (`getApecToken`, lines 79-100)

Each session function returns `(outcome, new cache state, performed-login?)`,
where the Bool records whether an upstream authentication request was issued
during the call. -/

structure ApecSt where
  apecToken : Option String := none
  apecTokenExpiry : Option ℚ := none
deriving Repr, DecidableEq

/-- Outcome of the `POST /token` request. -/
inductive ApecFetch where
  | httpError
  | tokenOk (access_token : String) (expires_in : ℚ)
deriving Repr, DecidableEq

/-- `apecToken && apecTokenExpiry && Date.now() < apecTokenExpiry - 300000`
(empty token and zero expiry are falsy). -/
def apecTokenValid (st : ApecSt) (now : ℚ) : Bool :=
  match st.apecToken, st.apecTokenExpiry with
  | some t, some e => decide (t ≠ "" ∧ e ≠ 0 ∧ now < e - 300000)
  | _, _ => false

def getApecToken (st : ApecSt) (now : ℚ) (creds : Bool) (f : ApecFetch) :
    Except String String × ApecSt × Bool :=
  if apecTokenValid st now then
    (.ok (st.apecToken.getD ""), st, false)
  else if !creds then
    (.error "APEC credentials not configured", st, false)
  else
    match f with
    | .httpError => (.error "APEC auth failed", st, true)
    | .tokenOk tok exp =>
        (.ok tok, ⟨some tok, some (now + exp * 1000)⟩, true)

/-! ### Emex customer-id cache (`emexLogin`, lines 167-175) -/

structure EmexSt where
  emexCid : Option String := none
  emexLoginTime : Option ℚ := none
deriving Repr, DecidableEq

/-- `emexCid && emexLoginTime && (Date.now() - emexLoginTime < 30*60*1000)`. -/
def emexCidValid (st : EmexSt) (now : ℚ) : Bool :=
  match st.emexCid, st.emexLoginTime with
  | some c, some t => decide (c ≠ "" ∧ t ≠ 0 ∧ now - t < 30 * 60 * 1000)
  | _, _ => false

/-- `emexLogin()`: the argument is `xv(xml, 'CustomerId')` of the SOAP login
response (`none` when the tag is absent).  A missing, empty or `"0"` customer
id throws; otherwise the id is cached with the login time. -/
def emexLogin (st : EmexSt) (now : ℚ) (cidResp : Option String) :
    Except String String × EmexSt × Bool :=
  if emexCidValid st now then
    (.ok (st.emexCid.getD ""), st, false)
  else
    match cidResp with
    | none => (.error "Emex login failed", st, true)
    | some c =>
        if c = "" ∨ c = "0" then (.error "Emex login failed", st, true)
        else (.ok c, ⟨some c, some now⟩, true)

/-! ### Cookie plumbing (`extractCookies` / `mergeCookies`, lines 204-217) -/

/-- Split at every `,` that is immediately followed by a non-space character
(the regex `/,(?=[^ ])/`). -/
def splitCommaNS : List Char → List Char → List (List Char)
  | [], acc => [acc.reverse]
  | ',' :: c :: rest, acc =>
      if c ≠ ' ' then acc.reverse :: splitCommaNS (c :: rest) []
      else splitCommaNS (c :: rest) (',' :: acc)
  | c :: rest, acc => splitCommaNS rest (c :: acc)

/-- `extractCookies(headers)`: from the raw `set-cookie` header value (`none`
when the header is absent), take each comma-separated cookie's `name=value`
part, keep those containing `=`, and join with `; `. -/
def extractCookies (raw : Option String) : String :=
  match raw with
  | none => ""
  | some r =>
      if r = "" then ""
      else
        let parts := (splitCommaNS r.data []).map
          (fun p => jsTrim (firstSemiPart (String.mk p)))
        String.intercalate "; " (parts.filter (fun c => jsIncludes c "="))

/-- One `c.trim().split('='); if (k) m[k.trim()] = v.join('=')` step folded
over the `;`-separated entries of a cookie string. -/
def addCookieStr (m : List (String × String)) (s : String) : List (String × String) :=
  (jsSplitOn s ";").foldl
    (fun m c =>
      let parts := jsSplitOn (jsTrim c) "="
      let k := parts.headD ""
      if k ≠ "" then setAssoc m (jsTrim k) (String.intercalate "=" parts.tail) else m)
    m

/-- `mergeCookies(a, b)`: later values for a cookie name overwrite earlier
ones; entries keep first-insertion order. -/
def mergeCookies (a b : String) : String :=
  if b = "" then jsOrS a ""
  else if a = "" then b
  else
    let m := addCookieStr (addCookieStr [] a) b
    String.intercalate "; " (m.map (fun kv => kv.1 ++ "=" ++ kv.2))

/-! ### Stimo cookie session (`stimoLogin`, lines 219-262) -/

structure StimoSt where
  stimoCookies : Option String := none
  stimoLoginTime : Option ℚ := none
deriving Repr, DecidableEq

/-- Observable outcomes of the three login-sequence fetches.  `homeSetCookie`
is the home page's `set-cookie` header (`none` as outer value: the fetch threw,
which the source swallows).  `loginStep` carries the login POST's `set-cookie`
and `location` headers (`none`: the POST threw).  `redirectSetCookie` is
consulted only when a redirect location is present (`none`: that GET threw). -/
structure StimoLoginFetches where
  homeSetCookie : Option (Option String) := none
  loginStep : Option (Option String × Option String) := none
  redirectSetCookie : Option (Option String) := none
deriving Repr, DecidableEq

/-- `stimoCookies && stimoLoginTime && (Date.now() - stimoLoginTime < 25*60*1000)`. -/
def stimoCookiesValid (st : StimoSt) (now : ℚ) : Bool :=
  match st.stimoCookies, st.stimoLoginTime with
  | some c, some t => decide (c ≠ "" ∧ t ≠ 0 ∧ now - t < 25 * 60 * 1000)
  | _, _ => false

def stimoLogin (st : StimoSt) (now : ℚ) (f : StimoLoginFetches) :
    Except Unit String × StimoSt × Bool :=
  if stimoCookiesValid st now then
    (.ok (st.stimoCookies.getD ""), st, false)
  else
    let cookies0 :=
      match f.homeSetCookie with
      | none => ""
      | some h => extractCookies h
    match f.loginStep with
    | none => (.error (), st, true)
    | some (sc, loc) =>
        let cookies1 := mergeCookies cookies0 (extractCookies sc)
        match loc with
        | some l =>
            if l ≠ "" then
              match f.redirectSetCookie with
              | none => (.error (), st, true)
              | some rsc =>
                  let cookies2 := mergeCookies cookies1 (extractCookies rsc)
                  (.ok cookies2, ⟨some cookies2, some now⟩, true)
            else (.ok cookies1, ⟨some cookies1, some now⟩, true)
        | none => (.ok cookies1, ⟨some cookies1, some now⟩, true)

/-! ### Thunder cookie session (`thunderLogin`, lines 372-405) -/

structure ThunderSt where
  thunderCookies : Option String := none
  thunderSessionExpiry : Option ℚ := none
deriving Repr, DecidableEq

/-- `homeSetCookie`: the homepage `set-cookie` header (`none` as outer value:
that fetch threw, which is caught and logged).  `loginStep` carries the login
POST's `set-cookie` header and response body (`none`: the POST threw). -/
structure ThunderLoginFetches where
  homeSetCookie : Option (Option String) := none
  loginStep : Option (Option String × String) := none
deriving Repr, DecidableEq

/-- `thunderCookies && thunderSessionExpiry && Date.now() < thunderSessionExpiry`. -/
def thunderCookiesValid (st : ThunderSt) (now : ℚ) : Bool :=
  match st.thunderCookies, st.thunderSessionExpiry with
  | some c, some e => decide (c ≠ "" ∧ e ≠ 0 ∧ now < e)
  | _, _ => false

def thunderLogin (st : ThunderSt) (now : ℚ) (f : ThunderLoginFetches) :
    Except Unit String × ThunderSt × Bool :=
  if thunderCookiesValid st now then
    (.ok (st.thunderCookies.getD ""), st, false)
  else
    let cookies0 :=
      match f.homeSetCookie with
      | some (some sc) => if sc ≠ "" then firstSemiPart sc else ""
      | _ => ""
    match f.loginStep with
    | none => (.error (), st, true)
    | some (nsc, body) =>
        let cookies1 :=
          match nsc with
          | some s => if s ≠ "" then mergeCookies cookies0 (firstSemiPart s) else cookies0
          | none => cookies0
        if strStarts body "//OK" then
          (.ok cookies1, ⟨some cookies1, some (now + 30 * 60 * 1000)⟩, true)
        else (.error (), st, true)

/-! ### `stripTags` / `parsePrice` (lines 264-273)

The global regex replacements are embedded as left-to-right character
scanners with the same match semantics. -/

/-- Scanner for `/<[^>]+>/g → ' '`.  The second argument buffers the
characters seen since an unclosed `<` (in reverse), `none` in normal mode. -/
def tagGo : List Char → Option (List Char) → List Char
  | [], none => []
  | [], some buf => '<' :: buf.reverse
  | c :: rest, none =>
      if c = '<' then tagGo rest (some []) else c :: tagGo rest none
  | c :: rest, some buf =>
      if c = '>' then
        if buf.isEmpty then '<' :: '>' :: tagGo rest none
        else ' ' :: tagGo rest none
      else tagGo rest (some (c :: buf))

def isWordChar (c : Char) : Bool := isAsciiAlpha c || isAsciiDigit c || c = '_'

/-- Scanner for `/&#?\w+;/g → ''`.  The state buffers a pending candidate
entity: a flag for a consumed `#` and the word characters seen (reversed). -/
def entityGo : List Char → Option (Bool × List Char) → List Char
  | [], none => []
  | [], some (h, buf) => '&' :: (if h then '#' :: buf.reverse else buf.reverse)
  | c :: rest, none =>
      if c = '&' then entityGo rest (some (false, []))
      else c :: entityGo rest none
  | c :: rest, some (h, buf) =>
      if c = ';' then
        if buf.isEmpty then
          ('&' :: (if h then ['#'] else [])) ++ ';' :: entityGo rest none
        else entityGo rest none
      else if isWordChar c then entityGo rest (some (h, c :: buf))
      else if c = '#' ∧ ¬h ∧ buf.isEmpty then entityGo rest (some (true, buf))
      else if c = '&' then
        ('&' :: (if h then '#' :: buf.reverse else buf.reverse)) ++
          entityGo rest (some (false, []))
      else
        ('&' :: (if h then '#' :: buf.reverse else buf.reverse)) ++
          c :: entityGo rest none

/-- Scanner for `/\s+/g → ' '` (the flag records whether the previous
character was whitespace). -/
def collapseWsGo : List Char → Bool → List Char
  | [], _ => []
  | c :: rest, prevWs =>
      if isJsWs c then
        if prevWs then collapseWsGo rest true else ' ' :: collapseWsGo rest true
      else c :: collapseWsGo rest false

/-- `stripTags(html)`: drop tags, decode the three fixed entities, drop the
remaining entities, collapse whitespace, trim. -/
def stripTags (html : String) : String :=
  let s1 := String.mk (tagGo html.data none)
  let s2 := jsReplaceAll (jsReplaceAll (jsReplaceAll s1 "&nbsp;" " ") "&amp;" "&") "&euro;" "€"
  let s3 := String.mk (entityGo s2.data none)
  jsTrim (String.mk (collapseWsGo s3.data false))

/-- `str.replace(',', '.')` — a string pattern replaces only the first
occurrence. -/
def replaceFirstComma : List Char → List Char
  | [] => []
  | ',' :: r => '.' :: r
  | c :: r => c :: replaceFirstComma r

/-- `parsePrice(str)`: strip `€` and whitespace, first comma becomes a dot,
`parseFloat`, `NaN ↦ 0`, round to 2 decimals. -/
def parsePrice (str : String) : ℚ :=
  if str = "" then 0
  else
    let cleaned :=
      String.mk (replaceFirstComma (str.data.filter (fun c => !(c = '€' || isJsWs c))))
    match jsParseFloat cleaned with
    | none => 0
    | some v => jsRound2 v

/-! ### Stimo search (`searchStimo`, lines 275-327) -/

/-- A raw Stimo result row as pushed by `searchStimo`. -/
structure StimoItem where
  source : String := ""
  partNumber : String := ""
  description : String := ""
  brand : String := ""
  priceWithVat : ℚ := 0
  yourPrice : ℚ := 0
  inStock : Bool := false
  deliveryDays : String := ""
deriving Repr, DecidableEq

/-- The eight cells captured by one match of the 8-column `rowRegex`. -/
structure StimoRowCells where
  cSource : String := ""
  cOeNumber : String := ""
  cDescription : String := ""
  cBrand : String := ""
  cPriceWithVat : String := ""
  cYourPrice : String := ""
  cAvailability : String := ""
  cDeliveryTime : String := ""
deriving Repr, DecidableEq

/-- Outcome of the search-page GET. -/
inductive StimoSearchFetch where
  | threw
  | httpNotOk
  | page (html : String)
deriving Repr, DecidableEq

/-- The body of the row loop: header rows and rows with an empty key cell are
skipped; in-stock means no `Nopresent` marker and no `---` in the stripped
availability cell. -/
def stimoParseRow (r : StimoRowCells) : Option StimoItem :=
  let cleanOe := jsTrim (stripTags r.cOeNumber)
  let cleanBrand := jsTrim (stripTags r.cBrand)
  if jsToLower cleanOe = "ое номер" ∨ cleanOe = "" then none
  else
    let hasStock :=
      !(jsIncludes r.cAvailability "Nopresent") &&
        !(jsIncludes (stripTags r.cAvailability) "---")
    some
      { source := jsTrim (stripTags r.cSource)
        partNumber := cleanOe
        description := jsTrim (stripTags r.cDescription)
        brand := cleanBrand
        priceWithVat := parsePrice (stripTags r.cPriceWithVat)
        yourPrice := parsePrice (stripTags r.cYourPrice)
        inStock := hasStock
        deliveryDays := jsOrS (jsTrim (stripTags r.cDeliveryTime)) "-" }

/-- `searchStimo`: log in (cached or fresh), GET the search page, detect a
stale session (login prompt present, results marker absent) — in that case
null out `stimoCookies` and return empty — otherwise parse the result rows.
`rows` stands for the list of `rowRegex` matches over the returned page (the
regex engine itself is the only abstracted step).  The returned Bool is the
login flag of the initial `stimoLogin` call; the function body contains no
other authentication request, so it records every login of the call. -/
def searchStimo (st : StimoSt) (now : ℚ) (lf : StimoLoginFetches)
    (sf : StimoSearchFetch) (rows : List StimoRowCells) :
    List StimoItem × StimoSt × Bool :=
  match stimoLogin st now lf with
  | (.error _, st1, b) => ([], st1, b)
  | (.ok _, st1, b) =>
      match sf with
      | .threw => ([], st1, b)
      | .httpNotOk => ([], st1, b)
      | .page html =>
          if jsIncludes html "ВХОД ЗА КЛИЕНТИ" && !(jsIncludes html "ИЗТОЧНИК") then
            ([], { st1 with stimoCookies := none }, b)
          else
            (rows.filterMap stimoParseRow, st1, b)

/-- The endpoint's Stimo normalization (lines 659-682): keep only in-stock
rows, then map each to the common record, bumping every digit run of the
delivery string by 2. -/
def incDigitRunsF : ℕ → List Char → List Char
  | _, [] => []
  | 0, l => l
  | fuel + 1, c :: rest =>
      if isAsciiDigit c then
        let run := c :: rest.takeWhile isAsciiDigit
        (toString (digitsToNat run + 2)).data ++
          incDigitRunsF fuel (rest.dropWhile isAsciiDigit)
      else c :: incDigitRunsF fuel rest

def incDigitRuns (l : List Char) : List Char := incDigitRunsF l.length l

def stimoTransform (item : StimoItem) : ResultItem :=
  let priceEUR := jsOrQ item.yourPrice 0
  let d0 := jsOrS item.deliveryDays "-"
  let d1 :=
    if d0 ≠ "" ∧ d0 ≠ "-" then String.mk (incDigitRuns d0.data)
    else "1 ден"
  let d2 :=
    if !(jsIncludes d1 "дни") && !(jsIncludes d1 "ден") then d1 ++ " дни" else d1
  { partNumber := item.partNumber
    description := jsOrS item.description ""
    priceEUR := priceEUR
    calculatedPrice := priceEUR
    stock := 1
    stockStatus := "in_stock"
    brand := jsOrS item.brand ""
    deliveryDays := d2
    source := "stimo"
    supplierName := "Стимо" }

def stimoNormalize (items : List StimoItem) : List ResultItem :=
  (items.filter (·.inStock)).map stimoTransform

/-! ### Thunder search (`searchThunder`, lines 407-542) -/

/-- A result row as built by `searchThunder`. -/
structure ThunderRow where
  partNumber : String := ""
  description : String := ""
  brand : String := ""
  weight : ℚ := 0
  priceEUR : ℚ := 0
  calculatedPrice : ℚ := 0
  deliveryDays : String := ""
  stock : ℚ := 0
  stockStatus : String := ""
  source : String := ""
  supplierName : String := ""
  thunderOption : Option String := none
deriving Repr, DecidableEq

def thunderSkip : List String := ["com.iisd", "[L", "java."]

def thunderFields : List String :=
  ["ProdStationID", "ProdID", "MarkGroupStationID", "MarkGroupID", "ProdNum",
   "ProdName", "NewProdNum", "NewProdName", "AltProdMarkStationID",
   "AltProdMarkID", "AltProdNum", "AltProdName", "Weight", "Active",
   "ProdImage", "ClientPrice", "ClientPriceCurrencyID", "Brand", "Seats"]

def skipMatch (s : String) : Bool := thunderSkip.any (fun p => strStarts s p)

/-- `st.filter(s => !skip.some(p => s.startsWith(p)) && !fields.has(s))`. -/
def thunderVals (st : List String) : List String :=
  st.filter (fun s => !skipMatch s && !thunderFields.contains s)

/-- `/^\d{5,}$/`. -/
def isProdIdTok (v : String) : Bool := v.length ≥ 5 && v.data.all isAsciiDigit

/-- `/^[A-Z0-9\-]{5,}$/i`. -/
def isOemTok (v : String) : Bool :=
  v.length ≥ 5 && v.data.all (fun c => isAsciiAlpha c || isAsciiDigit c || c = '-')

/-- `/^\d+$/`. -/
def isAllDigits (v : String) : Bool := v ≠ "" && v.data.all isAsciiDigit

/-- `/[Ѐ-ӿ]/` — contains a Cyrillic-script character. -/
def isCyrTok (v : String) : Bool :=
  v.data.any (fun c => 0x400 ≤ c.toNat && c.toNat ≤ 0x4ff)

/-- `/^[A-Za-z][A-Za-z\s]*$/`. -/
def isBrandTok (v : String) : Bool :=
  match v.data with
  | [] => false
  | c :: rest => isAsciiAlpha c && rest.all (fun d => isAsciiAlpha d || isJsWs d)

/-- `/^0\.\d{2}$/`. -/
def isWeightTok (v : String) : Bool :=
  match v.data with
  | ['0', '.', a, b] => isAsciiDigit a && isAsciiDigit b
  | _ => false

/-- The pattern-based field recovery over the filtered string table (lines
424-437): first all-digit token of length ≥ 5 → product id; first
alphanumeric-with-dash token that is not purely numeric → OEM number; last
alphabetic token longer than 1 → brand; first Cyrillic token → name; last
`0.xy` token → weight. -/
def thunderRecover (vals : List String) :
    Option String × Option String × Option String × Option String × ℚ :=
  let prodId := vals.find? isProdIdTok
  let oem := vals.find? (fun v => isOemTok v && !isAllDigits v)
  let brand := (vals.filter (fun v => isBrandTok v && v.length > 1)).getLast?
  let name := vals.find? isCyrTok
  let weight :=
    match (vals.filter isWeightTok).getLast? with
    | some w => jsParseFloatD w
    | none => 0
  (prodId, oem, brand, name, weight)

/-- A labelled availability option `{ label, price, days }`. -/
structure TOption where
  label : String
  price : ℚ
  days : Option ℕ
deriving Repr, DecidableEq

def thunderLabels : List String :=
  ["Поръчка", "Клиентска цена", "Поръчка 1", "Поръчка 2", "Поръчка 10"]

/-- `/^\d+\.\d+$/`. -/
def isPriceTok (v : String) : Bool :=
  match jsSplitOn v "." with
  | [a, b] => a ≠ "" && b ≠ "" && a.data.all isAsciiDigit && b.data.all isAsciiDigit
  | _ => false

/-- `/^\d{1,3}$/`. -/
def isDaysTok (v : String) : Bool :=
  1 ≤ v.length && v.length ≤ 3 && v.data.all isAsciiDigit

/-- The inner window scan (`for j = i+1; j < min(i+8, len)`), breaking at the
next label; the first decimal token (while `price` is still falsy) sets the
price, the first small integer ≤ 365 (while `days` is still `null`) sets the
lead time. -/
def scanWin : List String → ℚ → Option ℕ → ℚ × Option ℕ
  | [], price, days => (price, days)
  | v :: rest, price, days =>
      if thunderLabels.contains v then (price, days)
      else if isPriceTok v ∧ price = 0 then scanWin rest (jsParseFloatD v) days
      else if isDaysTok v ∧ digitsToNat v.data ≤ 365 ∧ days = none then
        scanWin rest price (some (digitsToNat v.data))
      else scanWin rest price days

/-- The outer option scan (lines 455-471): at each label, scan the next 7
tokens; options with a positive price are recorded. -/
def thunderScan : List String → List TOption
  | [] => []
  | v :: rest =>
      if thunderLabels.contains v then
        let pd := scanWin (rest.take 7) 0 none
        (if pd.1 > 0 then [⟨v, pd.1, pd.2⟩] else []) ++ thunderScan rest
      else thunderScan rest

/-- The comparator `(a, b) => a.price - b.price` as a relation. -/
def optPriceLE (a b : TOption) : Prop := a.price ≤ b.price

instance : DecidableRel optPriceLE :=
  fun a b => inferInstanceAs (Decidable (a.price ≤ b.price))

instance : IsTotal TOption optPriceLE := ⟨fun a b => le_total a.price b.price⟩

instance : IsTrans TOption optPriceLE := ⟨fun _ _ _ h1 h2 => le_trans h1 h2⟩

/-- The comparator `(a, b) => a.days - b.days` (only applied to options whose
`days` is non-null). -/
def optDaysLE (a b : TOption) : Prop := a.days.getD 0 ≤ b.days.getD 0

instance : DecidableRel optDaysLE :=
  fun a b => inferInstanceAs (Decidable (a.days.getD 0 ≤ b.days.getD 0))

instance : IsTotal TOption optDaysLE := ⟨fun a b => le_total (a.days.getD 0) (b.days.getD 0)⟩

instance : IsTrans TOption optDaysLE := ⟨fun _ _ _ h1 h2 => le_trans h1 h2⟩

/-- `[...options].sort((a, b) => a.price - b.price)` — JavaScript `sort` is
stable, which a stable sorting algorithm embeds exactly. -/
def thunderByPrice (options : List TOption) : List TOption :=
  List.insertionSort optPriceLE options

/-- `[...options].filter(o => o.days !== null).sort((a, b) => a.days - b.days)`. -/
def thunderByDays (options : List TOption) : List TOption :=
  List.insertionSort optDaysLE (options.filter (fun o => o.days ≠ none))

/-- `options.reduce((a, b) => a.price < b.price ? a : b)` — the first option
of minimal price. -/
def thunderReduceMin : List TOption → Option TOption
  | [] => none
  | x :: rest => some (rest.foldl (fun a b => if a.price < b.price then a else b) x)

/-- The row pushed for the cheapest option (`supplierName: 'Тандер'`,
tagged with the option's label, lead time `(days || 15) + 2`). -/
def thunderCheapRow (oem name brand : Option String) (weight : ℚ)
    (partNumber : String) (c : TOption) : ThunderRow :=
  { partNumber := jsOrStr oem (jsToUpper partNumber)
    description := jsOrStr name ""
    brand := jsOrStr brand ""
    weight := weight
    priceEUR := jsRound2 c.price
    calculatedPrice := jsRound2 c.price
    deliveryDays := toString (jsOrDays c.days 15 + 2) ++ " дни"
    stock := 1, stockStatus := "in_stock"
    source := "thunder", supplierName := "Тандер"
    thunderOption := some c.label }

/-- The row pushed for the fastest option (`supplierName: 'Тандер (бърза)'`,
lead time `(days || 11) + 2`). -/
def thunderFastRow (oem name brand : Option String) (weight : ℚ)
    (partNumber : String) (f : TOption) : ThunderRow :=
  { partNumber := jsOrStr oem (jsToUpper partNumber)
    description := jsOrStr name ""
    brand := jsOrStr brand ""
    weight := weight
    priceEUR := jsRound2 f.price
    calculatedPrice := jsRound2 f.price
    deliveryDays := toString (jsOrDays f.days 11 + 2) ++ " дни"
    stock := 1, stockStatus := "in_stock"
    source := "thunder", supplierName := "Тандер (бърза)"
    thunderOption := some f.label }

/-- The fallback row built from `clientPrice`/`bestDays` when the two blocks
above emitted nothing (it carries no `thunderOption`). -/
def thunderFallbackRow (oem name brand : Option String) (weight : ℚ)
    (partNumber : String) (clientPrice : ℚ) (bestDays : Option ℕ) : ThunderRow :=
  { partNumber := jsOrStr oem (jsToUpper partNumber)
    description := jsOrStr name ""
    brand := jsOrStr brand ""
    weight := weight
    priceEUR := jsRound2 clientPrice
    calculatedPrice := jsRound2 clientPrice
    deliveryDays := toString (jsOrDays bestDays 15 + 2) ++ " дни"
    stock := 1, stockStatus := "in_stock"
    source := "thunder", supplierName := "Тандер" }

/-- The result-building tail of `searchThunder` (lines 448-537): the cheapest
option always yields a row; a second row is added for the fastest option when
its label differs and `fastest.days < (cheapest.days || 999)`; if both blocks
yielded nothing but a positive `clientPrice` exists, a fallback row is built. -/
def thunderBuildRows (options : List TOption) (oem name brand : Option String)
    (weight : ℚ) (partNumber : String) : List ThunderRow :=
  let clientPrice := match thunderReduceMin options with | some c => c.price | none => 0
  let bestDays := match thunderReduceMin options with | some c => c.days | none => none
  let cheapest := (thunderByPrice options).head?
  let fastest := (thunderByDays options).head?
  let r1 : List ThunderRow :=
    match cheapest with
    | some c => [thunderCheapRow oem name brand weight partNumber c]
    | none => []
  let r2 : List ThunderRow :=
    match fastest, cheapest with
    | some f, some c =>
        if f.label ≠ c.label ∧ f.days.getD 0 < jsOrDays c.days 999 then
          [thunderFastRow oem name brand weight partNumber f]
        else []
    | _, _ => []
  let base := r1 ++ r2
  if base = [] ∧ clientPrice > 0 then
    [thunderFallbackRow oem name brand weight partNumber clientPrice bestDays]
  else base

/-- The post-login body of `searchThunder`: recover fields from the
`getManyParts` string table, bail out without a product id, scan the
availability table (`none`: the second call did not answer `//OK`), and build
the rows. -/
def searchThunderCore (partNumber : String) (st1 : List String)
    (avail : Option (List String)) : List ThunderRow :=
  let vals := thunderVals st1
  if vals = [] then []
  else
    let r := thunderRecover vals
    match r.1 with
    | none => []
    | some _ =>
        let avVals :=
          match avail with
          | some t => t.filter (fun s => !skipMatch s)
          | none => []
        thunderBuildRows (thunderScan avVals) r.2.1 r.2.2.2.1 r.2.2.1 r.2.2.2.2 partNumber

/-! ### The unified search endpoint (`GET /api/supplier-search`, lines 545-726) -/

def thunderEndpointMap (item : ThunderRow) : ResultItem :=
  { partNumber := item.partNumber
    description := jsOrS item.description ""
    priceEUR := jsOrQ item.priceEUR 0
    calculatedPrice := jsOrQ item.calculatedPrice 0
    stock := jsOrQ item.stock 1
    stockStatus := jsOrS item.stockStatus "in_stock"
    brand := jsOrS item.brand ""
    deliveryDays := jsOrS item.deliveryDays "15-20 дни"
    weight := some (jsOrQ item.weight 0)
    source := "thunder"
    supplierName := jsOrS item.supplierName "Тандер"
    thunderOption := some (jsOrStr item.thunderOption "") }

/-- The settled outcome of one adapter promise; a rejected adapter contributes
the empty list (`x.status === 'fulfilled' ? x.value : []`). -/
inductive Settled (α : Type) where
  | fulfilled (value : α)
  | rejected
deriving Repr, DecidableEq

def Settled.valueD {α : Type} : Settled (List α) → List α
  | .fulfilled v => v
  | .rejected => []

/-- The upstream interactions the endpoint handler can initiate, in program
order. -/
inductive UpstreamCall where
  | fxFetch
  | apecTokenCall
  | apecDeliveryPointsCall
  | impexSearch
  | apecSearch
  | emexSearch
  | stimoSearch
  | thunderSearch
deriving Repr, DecidableEq

structure SearchPayload where
  query : String
  impexCount : ℕ
  apecCount : ℕ
  emexCount : ℕ
  stimoCount : ℕ
  thunderCount : ℕ
  totalCount : ℕ
  elapsed : ℚ
  rates : Rates
  results : List ResultItem
deriving Repr, DecidableEq

inductive SearchResponse where
  | badRequest (error : String)
  | ok (payload : SearchPayload)
deriving Repr, DecidableEq

/-- The sort key `(x.calculatedPrice || 0)` of the final comparator. -/
def sortKey (r : ResultItem) : ℚ := jsOrQ r.calculatedPrice 0

def resLE (a b : ResultItem) : Prop := sortKey a ≤ sortKey b

instance : DecidableRel resLE :=
  fun a b => inferInstanceAs (Decidable (sortKey a ≤ sortKey b))

instance : IsTotal ResultItem resLE := ⟨fun a b => le_total (sortKey a) (sortKey b)⟩

instance : IsTrans ResultItem resLE := ⟨fun _ _ _ h1 h2 => le_trans h1 h2⟩

/-- `allResults.sort((a, b) => (a.calculatedPrice || 0) - (b.calculatedPrice || 0))`
— JavaScript `Array.prototype.sort` is stable, embedded by a stable sort. -/
def sortResults (l : List ResultItem) : List ResultItem :=
  List.insertionSort resLE l

/-- The endpoint handler as a pure function.  Inputs: the query parameter
(`none` when absent), the rate/APEC cache states and the clock, the upstream
responses (`fx`, `apecCreds`/`apecFetch`), and the settled outcome of each
adapter search (the adapters themselves are modelled separately; the endpoint
consumes their results exactly as `Promise.allSettled` hands them over).
Output: the JSON response plus the ordered list of upstream interactions the
handler initiated — the empty list when validation already failed. -/
def supplierSearch (q : Option String) (ratesSt : RatesSt) (apecSt : ApecSt)
    (now elapsed : ℚ) (fx : FxOutcome) (apecCreds : Bool) (apecFetch : ApecFetch)
    (impexRaw : Settled (List ImpexPart)) (apecRaw : Settled (List ApecItem))
    (emexRaw : Settled (List EmexItem)) (stimoRaw : Settled (List StimoItem))
    (thunderRaw : Settled (List ThunderRow)) :
    SearchResponse × List UpstreamCall :=
  match q with
  | none => (.badRequest "Query must be at least 3 characters", [])
  | some s =>
      if s = "" ∨ s.length < 3 then (.badRequest "Query must be at least 3 characters", [])
      else
        let rates := (getExchangeRates ratesSt now fx).1
        let apecTok : Option String :=
          match (getApecToken apecSt now apecCreds apecFetch).1 with
          | .ok t => some t
          | .error _ => none
        let tokTruthy : Bool :=
          match apecTok with | some t => decide (t ≠ "") | none => false
        let impexResults := (impexRaw.valueD).map (impexTransform rates)
        let apecResults :=
          (if tokTruthy then apecRaw.valueD else []).map (apecTransform rates)
        let emexResults := emexNormalize rates emexRaw.valueD
        let stimoResults := stimoNormalize stimoRaw.valueD
        let thunderResults := (thunderRaw.valueD).map thunderEndpointMap
        let allResults :=
          impexResults ++ apecResults ++ emexResults ++ stimoResults ++ thunderResults
        let trace :=
          [UpstreamCall.fxFetch, UpstreamCall.apecTokenCall] ++
          (if tokTruthy then [UpstreamCall.apecDeliveryPointsCall] else []) ++
          [UpstreamCall.impexSearch] ++
          (if tokTruthy then [UpstreamCall.apecSearch] else []) ++
          [UpstreamCall.emexSearch, UpstreamCall.stimoSearch, UpstreamCall.thunderSearch]
        (.ok { query := s
               impexCount := impexResults.length
               apecCount := apecResults.length
               emexCount := emexResults.length
               stimoCount := stimoResults.length
               thunderCount := thunderResults.length
               totalCount := allResults.length
               elapsed := elapsed
               rates := rates
               results := (sortResults allResults).take 60 },
         trace)

/-- Invariant of the `emexBest` fold accumulator: keys are distinct, every
entry keys its own item, holds an already-processed item of minimal price for
its key, and every processed item's key is represented. -/
def EmexInv (processed : List EmexItem) (m : List (String × EmexItem)) : Prop :=
  (m.map Prod.fst).Nodup ∧
  (∀ kv ∈ m, kv.1 = emexKey kv.2 ∧ kv.2 ∈ processed ∧
    ∀ o ∈ processed, emexKey o = kv.1 → kv.2.price ≤ o.price) ∧
  (∀ o ∈ processed, ∃ kv ∈ m, kv.1 = emexKey o)

/-! ## Theorems -/

theorem jsOrQ_zero (x : ℚ) : jsOrQ x 0 = x := by
  unfold jsOrQ; split <;> simp [*]

theorem sortKey_eq (r : ResultItem) : sortKey r = r.calculatedPrice :=
  jsOrQ_zero _

theorem jsRound2_mono {x y : ℚ} (h : x ≤ y) : jsRound2 x ≤ jsRound2 y := by
  unfold jsRound2
  have hf : (⌊x * 100 + 1/2⌋ : ℤ) ≤ ⌊y * 100 + 1/2⌋ :=
    Int.floor_le_floor (by linarith)
  have hq : ((⌊x * 100 + 1/2⌋ : ℤ) : ℚ) ≤ ((⌊y * 100 + 1/2⌋ : ℤ) : ℚ) := by
    exact_mod_cast hf
  linarith

theorem find?_of_filter_singleton {α : Type} {p : α → Bool} :
    ∀ {l : List α} {x : α}, l.filter p = [x] → l.find? p = some x := by
  intro l
  induction l with
  | nil => intro x h; simp at h
  | cons a t ih =>
      intro x h
      by_cases hp : p a
      · rw [List.filter_cons_of_pos hp] at h
        rw [List.cons_eq_cons] at h
        rw [List.find?_cons_of_pos _ hp, h.1]
      · rw [List.filter_cons_of_neg hp] at h
        rw [List.find?_cons_of_neg _ hp]
        exact ih h

/-- C3: `getExchangeRates` never throws; in every execution in which the
upstream FX fetch fails or returns a body without a `rates` field, it returns
the last successful snapshot if one exists and otherwise exactly the hardcoded
fallback `{jpyToEur: 0.0061, usdToEur: 0.92}`.  (The embedded function is
total, so "does not throw" holds by construction; `Option.getD` returns the
cached snapshot when present, the fallback otherwise.) -/
theorem C3_rates_fallback (st : RatesSt) (now : ℚ) (fx : FxOutcome)
    (h : fx = .fetchError ∨ fx = .noRatesField) :
    (getExchangeRates st now fx).1 = st.cachedRates.getD fallbackRates := by
  unfold getExchangeRates
  split
  · rfl
  · rcases h with h | h <;> subst h <;> rfl

theorem C3_witness :
    ((FxOutcome.fetchError = FxOutcome.fetchError ∨
        FxOutcome.fetchError = FxOutcome.noRatesField) ∧
      (getExchangeRates ⟨none, none⟩ 0 .fetchError).1 =
        (⟨none, none⟩ : RatesSt).cachedRates.getD fallbackRates) ∧
    (getExchangeRates ⟨none, none⟩ 0 .fetchError).1 = fallbackRates :=
  ⟨⟨Or.inl rfl, C3_rates_fallback ⟨none, none⟩ 0 .fetchError (Or.inl rfl)⟩, rfl⟩

/-- C4: for `priceUSD = 100`, `usdToEur = 0.92`, `weightKg = 1.0` with the
constants duty 5 %, shipping 12.00/kg, VAT 20 %, the APEC transform emits
`priceEUR = 92.00` and `calculatedPrice = 130.32`
(92 → 96.60 → 108.60 → 130.32). -/
theorem C4_markup_concrete :
    (apecTransform ⟨61/10000, 92/100⟩
        { Price := some 100, WeightPhysical := some 1 }).priceEUR = 92 ∧
    (apecTransform ⟨61/10000, 92/100⟩
        { Price := some 100, WeightPhysical := some 1 }).calculatedPrice = 13032/100 := by
  constructor <;>
    norm_num [apecTransform, jsOrNum, jsOrInt, jsRound2,
      APEC_DUTY, APEC_VAT, APEC_SHIPPING_PER_KG]

/-- C5, counterexample: the claim asserts `calculatedPrice ≥ priceEUR` for
every raw item of the markup-formula transforms, but the Impex transform is
applied to the raw feed without any sign check: for `price_yen = -1000` under
the fallback rate `jpyToEur = 0.0061` the emitted record has
`priceEUR = -6.10` and `calculatedPrice = -8.97 < priceEUR`. -/
theorem C5_counterexample :
    (impexTransform fallbackRates { price_yen := some (-1000) }).calculatedPrice <
      (impexTransform fallbackRates { price_yen := some (-1000) }).priceEUR := by
  norm_num [impexTransform, fallbackRates, jsOrNum, jsRound2]

/-- C5, amended: for every raw item whose (defaulted) raw price and weight are
non-negative, under non-negative exchange rates, each markup-formula transform
(Impex ×1.47, APEC and Emex duty+shipping+VAT) emits
`priceEUR ≤ calculatedPrice`, both fields being independently rounded to two
decimals. -/
theorem C5_amended :
    (∀ (rates : Rates) (part : ImpexPart),
      0 ≤ jsOrNum part.price_yen 0 → 0 ≤ rates.jpyToEur →
      (impexTransform rates part).priceEUR ≤ (impexTransform rates part).calculatedPrice) ∧
    (∀ (rates : Rates) (item : ApecItem),
      0 ≤ jsOrNum item.Price 0 → 0 ≤ jsOrNum item.WeightPhysical (1/2) →
      0 ≤ rates.usdToEur →
      (apecTransform rates item).priceEUR ≤ (apecTransform rates item).calculatedPrice) ∧
    (∀ (rates : Rates) (item : EmexItem),
      0 ≤ jsOrQ item.price 0 → 0 ≤ jsOrQ item.weight (1/2) → 0 ≤ rates.usdToEur →
      (emexTransform rates item).priceEUR ≤ (emexTransform rates item).calculatedPrice) := by
  refine ⟨?_, ?_, ?_⟩
  · intro rates part hp hr
    show jsRound2 _ ≤ jsRound2 _
    apply jsRound2_mono
    have hpe : 0 ≤ jsOrNum part.price_yen 0 * rates.jpyToEur := mul_nonneg hp hr
    nlinarith
  · intro rates item hp hw hr
    show jsRound2 _ ≤ jsRound2 _
    apply jsRound2_mono
    have hpe : 0 ≤ jsOrNum item.Price 0 * rates.usdToEur := mul_nonneg hp hr
    unfold APEC_DUTY APEC_VAT APEC_SHIPPING_PER_KG
    nlinarith
  · intro rates item hp hw hr
    show jsRound2 _ ≤ jsRound2 _
    apply jsRound2_mono
    have hpe : 0 ≤ jsOrQ item.price 0 * rates.usdToEur := mul_nonneg hp hr
    unfold APEC_DUTY APEC_VAT APEC_SHIPPING_PER_KG
    nlinarith

theorem C5_amended_witness :
    (0 ≤ jsOrNum (some 100 : Option ℚ) 0 ∧ 0 ≤ (92 : ℚ)/100 ∧
      (apecTransform ⟨61/10000, 92/100⟩
          { Price := some 100, WeightPhysical := some 1 }).priceEUR ≤
        (apecTransform ⟨61/10000, 92/100⟩
          { Price := some 100, WeightPhysical := some 1 }).calculatedPrice) :=
  ⟨by norm_num [jsOrNum], by norm_num,
    C5_amended.2.1 ⟨61/10000, 92/100⟩ { Price := some 100, WeightPhysical := some 1 }
      (by norm_num [jsOrNum]) (by norm_num [jsOrNum]) (by norm_num)⟩

/-- C2: for every request whose query parameter is missing or shorter than 3
characters, the endpoint answers the 400-class validation error and initiates
no upstream interaction at all (no rate fetch, no APEC login, no delivery-point
lookup, no adapter search). -/
theorem C2_validation (q : Option String) (ratesSt : RatesSt) (apecSt : ApecSt)
    (now elapsed : ℚ) (fx : FxOutcome) (apecCreds : Bool) (apecFetch : ApecFetch)
    (impexRaw : Settled (List ImpexPart)) (apecRaw : Settled (List ApecItem))
    (emexRaw : Settled (List EmexItem)) (stimoRaw : Settled (List StimoItem))
    (thunderRaw : Settled (List ThunderRow))
    (h : q = none ∨ ∃ s, q = some s ∧ s.length < 3) :
    supplierSearch q ratesSt apecSt now elapsed fx apecCreds apecFetch
        impexRaw apecRaw emexRaw stimoRaw thunderRaw =
      (.badRequest "Query must be at least 3 characters", []) := by
  rcases h with h | ⟨s, hq, hs⟩
  · subst h; rfl
  · subst hq
    simp only [supplierSearch]
    rw [if_pos (Or.inr hs)]

theorem C2_witness :
    ((some "ab" = (none : Option String) ∨ ∃ s, some "ab" = some s ∧ s.length < 3) ∧
      supplierSearch (some "ab") ⟨none, none⟩ ⟨none, none⟩ 0 0 .fetchError false
          .httpError .rejected .rejected .rejected .rejected .rejected =
        (.badRequest "Query must be at least 3 characters", [])) :=
  ⟨Or.inr ⟨"ab", rfl, by decide⟩,
    C2_validation (some "ab") ⟨none, none⟩ ⟨none, none⟩ 0 0 .fetchError false
      .httpError .rejected .rejected .rejected .rejected .rejected
      (Or.inr ⟨"ab", rfl, by decide⟩)⟩

/-- C7: for every Stimo search whose page contains the login-prompt phrase
`ВХОД ЗА КЛИЕНТИ` without the results-section marker `ИЗТОЧНИК`, the adapter
nulls the cached cookie session and returns the empty list; the returned login
flag is exactly the initial `stimoLogin`'s flag (the call contains no other
authentication request, so no re-login happens within the call), and the
resulting state fails the cache check at every later time, forcing the next
call to re-authenticate. -/
theorem C7_stimo_stale (st : StimoSt) (now : ℚ) (lf : StimoLoginFetches)
    (html : String) (rows : List StimoRowCells) (ck : String) (st1 : StimoSt) (b : Bool)
    (hlogin : stimoLogin st now lf = (.ok ck, st1, b))
    (h1 : jsIncludes html "ВХОД ЗА КЛИЕНТИ" = true)
    (h2 : jsIncludes html "ИЗТОЧНИК" = false) :
    searchStimo st now lf (.page html) rows = ([], { st1 with stimoCookies := none }, b) ∧
    ∀ now2, stimoCookiesValid { st1 with stimoCookies := none } now2 = false := by
  constructor
  · unfold searchStimo
    rw [hlogin]
    simp [h1, h2]
  · intro now2
    rfl

theorem C7_witness :
    searchStimo ⟨some "sid=1", some 1⟩ 2 {} (.page "страница ВХОД ЗА КЛИЕНТИ тук") [] =
      ([], ⟨none, some 1⟩, false) ∧
    ∀ now2, stimoCookiesValid ⟨none, some 1⟩ now2 = false :=
  C7_stimo_stale ⟨some "sid=1", some 1⟩ 2 {} "страница ВХОД ЗА КЛИЕНТИ тук" []
    "sid=1" ⟨some "sid=1", some 1⟩ false
    (by norm_num [stimoLogin, stimoCookiesValid]; decide) (by decide) (by decide)

/-- C9: whenever the filtered Thunder string table contains exactly one token
matching the product-id pattern (here a 6-digit all-numeric token), exactly
one matching the OEM pattern (a 7-character alphanumeric-with-dash token that
is not purely numeric), and exactly one Cyrillic-script token, the field
recovery assigns them to `productId`, `oem` and `name` respectively —
independent of their positions in the table, since the list is universally
quantified and only constrained up to those membership counts. -/
theorem C9_field_recovery (st : List String) (p o n : String)
    (hp : (thunderVals st).filter isProdIdTok = [p])
    (hp6 : p.length = 6 ∧ p.data.all isAsciiDigit = true)
    (ho : (thunderVals st).filter (fun v => isOemTok v && !isAllDigits v) = [o])
    (ho7 : o.length = 7)
    (hn : (thunderVals st).filter isCyrTok = [n]) :
    (thunderRecover (thunderVals st)).1 = some p ∧
    (thunderRecover (thunderVals st)).2.1 = some o ∧
    (thunderRecover (thunderVals st)).2.2.2.1 = some n := by
  refine ⟨?_, ?_, ?_⟩ <;> simp only [thunderRecover]
  · exact find?_of_filter_singleton hp
  · exact find?_of_filter_singleton ho
  · exact find?_of_filter_singleton hn

theorem C9_witness :
    (thunderRecover (thunderVals ["Лагер", "ABC-123", "123456"])).1 = some "123456" ∧
    (thunderRecover (thunderVals ["Лагер", "ABC-123", "123456"])).2.1 = some "ABC-123" ∧
    (thunderRecover (thunderVals ["Лагер", "ABC-123", "123456"])).2.2.2.1 = some "Лагер" :=
  C9_field_recovery ["Лагер", "ABC-123", "123456"] "123456" "ABC-123" "Лагер"
    (by decide) (by decide) (by decide) (by decide) (by decide)

theorem sortResults_pairwise (l : List ResultItem) :
    ((sortResults l).take 60).Pairwise
      (fun a b => a.calculatedPrice ≤ b.calculatedPrice) := by
  have hs : (sortResults l).Pairwise resLE := List.sorted_insertionSort resLE l
  have ht : ((sortResults l).take 60).Pairwise resLE :=
    List.Pairwise.sublist (List.take_sublist 60 _) hs
  exact ht.imp (fun {a b} hab => by
    rw [← sortKey_eq a, ← sortKey_eq b]; exact hab)

theorem sortResults_len (l : List ResultItem) :
    ((sortResults l).take 60).length ≤ 60 := by
  rw [List.length_take]; exact min_le_left _ _

/-- C1: every successful response of the search endpoint carries a `results`
array that is sorted non-decreasing by `calculatedPrice` and holds at most 60
entries — for arbitrary supplier contributions (the adapter outcomes are
universally quantified, so the bound and order hold regardless of how many
normalized items each of the five suppliers produced; order depends only on
the computed price, never on adapter completion order). -/
theorem C1_sorted_capped (q : Option String) (ratesSt : RatesSt) (apecSt : ApecSt)
    (now elapsed : ℚ) (fx : FxOutcome) (apecCreds : Bool) (apecFetch : ApecFetch)
    (impexRaw : Settled (List ImpexPart)) (apecRaw : Settled (List ApecItem))
    (emexRaw : Settled (List EmexItem)) (stimoRaw : Settled (List StimoItem))
    (thunderRaw : Settled (List ThunderRow)) (p : SearchPayload) (tr : List UpstreamCall)
    (h : supplierSearch q ratesSt apecSt now elapsed fx apecCreds apecFetch
        impexRaw apecRaw emexRaw stimoRaw thunderRaw = (.ok p, tr)) :
    p.results.Pairwise (fun a b => a.calculatedPrice ≤ b.calculatedPrice) ∧
    p.results.length ≤ 60 := by
  cases q with
  | none => simp [supplierSearch] at h
  | some s =>
      simp only [supplierSearch] at h
      by_cases hv : s = "" ∨ s.length < 3
      · rw [if_pos hv] at h
        exact absurd h (by simp)
      · rw [if_neg hv] at h
        simp only [Prod.mk.injEq, SearchResponse.ok.injEq] at h
        obtain ⟨hp, -⟩ := h
        subst hp
        exact ⟨sortResults_pairwise _, sortResults_len _⟩

theorem C1_witness :
    ({ query := "abc", impexCount := 0, apecCount := 0, emexCount := 0,
       stimoCount := 0, thunderCount := 0, totalCount := 0, elapsed := 5,
       rates := fallbackRates, results := [] } : SearchPayload).results.Pairwise
        (fun a b => a.calculatedPrice ≤ b.calculatedPrice) ∧
    ({ query := "abc", impexCount := 0, apecCount := 0, emexCount := 0,
       stimoCount := 0, thunderCount := 0, totalCount := 0, elapsed := 5,
       rates := fallbackRates, results := [] } : SearchPayload).results.length ≤ 60 :=
  C1_sorted_capped (some "abc") ⟨none, none⟩ ⟨none, none⟩ 0 5 .fetchError false
    .httpError .rejected .rejected .rejected .rejected .rejected _
    [UpstreamCall.fxFetch, UpstreamCall.apecTokenCall, UpstreamCall.impexSearch,
     UpstreamCall.emexSearch, UpstreamCall.stimoSearch, UpstreamCall.thunderSearch]
    (by rfl)

theorem apecValid_token {st : ApecSt} {now : ℚ} (h : apecTokenValid st now = true) :
    ∃ t, st.apecToken = some t ∧ t ≠ "" := by
  unfold apecTokenValid at h
  cases hT : st.apecToken with
  | none => rw [hT] at h; cases hE : st.apecTokenExpiry <;> rw [hE] at h <;> simp at h
  | some t =>
      cases hE : st.apecTokenExpiry with
      | none => rw [hT, hE] at h; simp at h
      | some e =>
          rw [hT, hE] at h
          simp only [decide_eq_true_eq] at h
          exact ⟨t, rfl, h.1⟩

theorem apec_ok_token {st : ApecSt} {now : ℚ} {cr : Bool} {f : ApecFetch}
    {v : String} {st1 : ApecSt} {b : Bool}
    (h : getApecToken st now cr f = (.ok v, st1, b)) : st1.apecToken = some v := by
  unfold getApecToken at h
  split at h
  case isTrue hc =>
      obtain ⟨t, ht, -⟩ := apecValid_token hc
      simp only [Prod.mk.injEq, Except.ok.injEq] at h
      obtain ⟨h1, h2, -⟩ := h
      rw [← h2, ht, ← h1, ht]
      rfl
  case isFalse =>
      split at h
      · simp at h
      · cases f with
        | httpError => simp at h
        | tokenOk tok exp =>
            simp only [Prod.mk.injEq, Except.ok.injEq] at h
            obtain ⟨h1, h2, -⟩ := h
            rw [← h2, ← h1]

theorem emexValid_cid {st : EmexSt} {now : ℚ} (h : emexCidValid st now = true) :
    ∃ c, st.emexCid = some c ∧ c ≠ "" := by
  unfold emexCidValid at h
  cases hT : st.emexCid with
  | none => rw [hT] at h; cases hE : st.emexLoginTime <;> rw [hE] at h <;> simp at h
  | some c =>
      cases hE : st.emexLoginTime with
      | none => rw [hT, hE] at h; simp at h
      | some t =>
          rw [hT, hE] at h
          simp only [decide_eq_true_eq] at h
          exact ⟨c, rfl, h.1⟩

theorem emex_ok_cid {st : EmexSt} {now : ℚ} {f : Option String}
    {v : String} {st1 : EmexSt} {b : Bool}
    (h : emexLogin st now f = (.ok v, st1, b)) : st1.emexCid = some v := by
  unfold emexLogin at h
  split at h
  case isTrue hc =>
      obtain ⟨c, hc', -⟩ := emexValid_cid hc
      simp only [Prod.mk.injEq, Except.ok.injEq] at h
      obtain ⟨h1, h2, -⟩ := h
      rw [← h2, hc', ← h1, hc']
      rfl
  case isFalse =>
      cases f with
      | none => simp at h
      | some c =>
          simp only at h
          split at h
          · simp at h
          · simp only [Prod.mk.injEq, Except.ok.injEq] at h
            obtain ⟨h1, h2, -⟩ := h
            rw [← h2, ← h1]

theorem stimoValid_cookies {st : StimoSt} {now : ℚ} (h : stimoCookiesValid st now = true) :
    ∃ c, st.stimoCookies = some c ∧ c ≠ "" := by
  unfold stimoCookiesValid at h
  cases hT : st.stimoCookies with
  | none => rw [hT] at h; cases hE : st.stimoLoginTime <;> rw [hE] at h <;> simp at h
  | some c =>
      cases hE : st.stimoLoginTime with
      | none => rw [hT, hE] at h; simp at h
      | some t =>
          rw [hT, hE] at h
          simp only [decide_eq_true_eq] at h
          exact ⟨c, rfl, h.1⟩

theorem stimo_ok_cookies {st : StimoSt} {now : ℚ} {f : StimoLoginFetches}
    {v : String} {st1 : StimoSt} {b : Bool}
    (h : stimoLogin st now f = (.ok v, st1, b)) : st1.stimoCookies = some v := by
  unfold stimoLogin at h
  split at h
  case isTrue hc =>
      obtain ⟨c, hc', -⟩ := stimoValid_cookies hc
      simp only [Prod.mk.injEq, Except.ok.injEq] at h
      obtain ⟨h1, h2, -⟩ := h
      rw [← h2, hc', ← h1, hc']
      rfl
  case isFalse =>
      cases hls : f.loginStep with
      | none => rw [hls] at h; simp at h
      | some scloc =>
          obtain ⟨sc, loc⟩ := scloc
          rw [hls] at h
          cases loc with
          | none =>
              simp only [Prod.mk.injEq, Except.ok.injEq] at h
              obtain ⟨h1, h2, -⟩ := h
              rw [← h2, ← h1]
          | some l =>
              simp only at h
              split at h
              · cases hrs : f.redirectSetCookie with
                | none => rw [hrs] at h; simp at h
                | some rsc =>
                    rw [hrs] at h
                    simp only [Prod.mk.injEq, Except.ok.injEq] at h
                    obtain ⟨h1, h2, -⟩ := h
                    rw [← h2, ← h1]
              · simp only [Prod.mk.injEq, Except.ok.injEq] at h
                obtain ⟨h1, h2, -⟩ := h
                rw [← h2, ← h1]

theorem thunderValid_cookies {st : ThunderSt} {now : ℚ}
    (h : thunderCookiesValid st now = true) :
    ∃ c, st.thunderCookies = some c ∧ c ≠ "" := by
  unfold thunderCookiesValid at h
  cases hT : st.thunderCookies with
  | none => rw [hT] at h; cases hE : st.thunderSessionExpiry <;> rw [hE] at h <;> simp at h
  | some c =>
      cases hE : st.thunderSessionExpiry with
      | none => rw [hT, hE] at h; simp at h
      | some e =>
          rw [hT, hE] at h
          simp only [decide_eq_true_eq] at h
          exact ⟨c, rfl, h.1⟩

theorem thunder_ok_cookies {st : ThunderSt} {now : ℚ} {f : ThunderLoginFetches}
    {v : String} {st1 : ThunderSt} {b : Bool}
    (h : thunderLogin st now f = (.ok v, st1, b)) : st1.thunderCookies = some v := by
  unfold thunderLogin at h
  split at h
  case isTrue hc =>
      obtain ⟨c, hc', -⟩ := thunderValid_cookies hc
      simp only [Prod.mk.injEq, Except.ok.injEq] at h
      obtain ⟨h1, h2, -⟩ := h
      rw [← h2, hc', ← h1, hc']
      rfl
  case isFalse =>
      cases hls : f.loginStep with
      | none => rw [hls] at h; simp at h
      | some scbody =>
          obtain ⟨nsc, body⟩ := scbody
          rw [hls] at h
          simp only at h
          split at h
          · simp only [Prod.mk.injEq, Except.ok.injEq] at h
            obtain ⟨h1, h2, -⟩ := h
            rw [← h2, ← h1]
          · simp at h

/-- C6, amended: for each of the four supplier session caches, if a call
returns a session value successfully and the resulting cache state still
passes that supplier's own validity check at the time of a second call (which
in particular requires the cached value to be a non-empty string), then the
second call returns the same cached value, leaves the state untouched, and
performs no upstream login request. -/
theorem C6_amended :
    (∀ (st : ApecSt) (now1 : ℚ) (cr : Bool) (f : ApecFetch) (v : String)
        (st1 : ApecSt) (b : Bool),
      getApecToken st now1 cr f = (.ok v, st1, b) →
      ∀ (now2 : ℚ) (cr2 : Bool) (f2 : ApecFetch), apecTokenValid st1 now2 = true →
      getApecToken st1 now2 cr2 f2 = (.ok v, st1, false)) ∧
    (∀ (st : EmexSt) (now1 : ℚ) (f : Option String) (v : String)
        (st1 : EmexSt) (b : Bool),
      emexLogin st now1 f = (.ok v, st1, b) →
      ∀ (now2 : ℚ) (f2 : Option String), emexCidValid st1 now2 = true →
      emexLogin st1 now2 f2 = (.ok v, st1, false)) ∧
    (∀ (st : StimoSt) (now1 : ℚ) (f : StimoLoginFetches) (v : String)
        (st1 : StimoSt) (b : Bool),
      stimoLogin st now1 f = (.ok v, st1, b) →
      ∀ (now2 : ℚ) (f2 : StimoLoginFetches), stimoCookiesValid st1 now2 = true →
      stimoLogin st1 now2 f2 = (.ok v, st1, false)) ∧
    (∀ (st : ThunderSt) (now1 : ℚ) (f : ThunderLoginFetches) (v : String)
        (st1 : ThunderSt) (b : Bool),
      thunderLogin st now1 f = (.ok v, st1, b) →
      ∀ (now2 : ℚ) (f2 : ThunderLoginFetches), thunderCookiesValid st1 now2 = true →
      thunderLogin st1 now2 f2 = (.ok v, st1, false)) := by
  refine ⟨?_, ?_, ?_, ?_⟩
  · intro st now1 cr f v st1 b h now2 cr2 f2 hv
    have htok := apec_ok_token h
    unfold getApecToken
    rw [if_pos hv, htok]
    rfl
  · intro st now1 f v st1 b h now2 f2 hv
    have hcid := emex_ok_cid h
    unfold emexLogin
    rw [if_pos hv, hcid]
    rfl
  · intro st now1 f v st1 b h now2 f2 hv
    have hck := stimo_ok_cookies h
    unfold stimoLogin
    rw [if_pos hv, hck]
    rfl
  · intro st now1 f v st1 b h now2 f2 hv
    have hck := thunder_ok_cookies h
    unfold thunderLogin
    rw [if_pos hv, hck]
    rfl

theorem C6_witness :
    getApecToken ⟨some "T", some ((0 : ℚ) + 3600 * 1000)⟩ 1000 true .httpError =
      (.ok "T", ⟨some "T", some ((0 : ℚ) + 3600 * 1000)⟩, false) :=
  C6_amended.1 ⟨none, none⟩ 0 true (.tokenOk "T" 3600) "T"
    ⟨some "T", some ((0 : ℚ) + 3600 * 1000)⟩ true rfl 1000 true .httpError
    (by norm_num [apecTokenValid]; decide)

/-- C6, counterexample: the claim as stated is false when the value cached by
the first call is the empty string.  Concretely for Stimo: a login sequence
whose three fetches carry no `Set-Cookie` headers caches the empty cookie
string; a second call 995 ms later — well inside the 25-minute validity
window — performs a fresh upstream login (flag `true`) and returns a
different cookie value, because the empty string is falsy in the cache check. -/
theorem C6_counterexample :
    stimoLogin ⟨none, none⟩ 5 ⟨some none, some (none, none), none⟩ =
      (.ok "", ⟨some "", some 5⟩, true) ∧
    ((1000 : ℚ) - 5 < 25 * 60 * 1000) ∧
    stimoLogin ⟨some "", some 5⟩ 1000
        ⟨some none, some (some "PHPSESSID=x; Path=/", none), none⟩ =
      (.ok "PHPSESSID=x", ⟨some "PHPSESSID=x", some 1000⟩, true) :=
  ⟨rfl, by norm_num, rfl⟩

theorem getAssoc_none_iff {α : Type} :
    ∀ (m : List (String × α)) (k : String),
      getAssoc m k = none ↔ ∀ kv ∈ m, kv.1 ≠ k := by
  intro m k
  induction m with
  | nil => simp [getAssoc]
  | cons hd tl ih =>
      obtain ⟨k', v'⟩ := hd
      by_cases hk : k' = k
      · subst hk
        simp [getAssoc]
      · simp only [getAssoc, if_neg hk, ih, List.mem_cons]
        constructor
        · rintro h kv (rfl | hkv)
          · exact hk
          · exact h kv hkv
        · intro h kv hkv
          exact h kv (Or.inr hkv)

theorem getAssoc_some_mem {α : Type} :
    ∀ {m : List (String × α)} {k : String} {v : α},
      getAssoc m k = some v → (k, v) ∈ m := by
  intro m
  induction m with
  | nil => intro k v h; simp [getAssoc] at h
  | cons hd tl ih =>
      intro k v h
      obtain ⟨k', v'⟩ := hd
      by_cases hk : k' = k
      · subst hk
        rw [getAssoc, if_pos rfl] at h
        injection h with h
        subst h
        exact List.mem_cons_self _ _
      · rw [getAssoc, if_neg hk] at h
        exact List.mem_cons_of_mem _ (ih h)

theorem setAssoc_of_none {α : Type} :
    ∀ {m : List (String × α)} {k : String}, getAssoc m k = none →
      ∀ (v : α), setAssoc m k v = m ++ [(k, v)] := by
  intro m
  induction m with
  | nil => intro k _ v; rfl
  | cons hd tl ih =>
      intro k h v
      obtain ⟨k', v'⟩ := hd
      by_cases hk : k' = k
      · rw [getAssoc, if_pos hk] at h; exact absurd h (by simp)
      · rw [getAssoc, if_neg hk] at h
        rw [setAssoc, if_neg hk, ih h]
        rfl

theorem self_mem_setAssoc {α : Type} :
    ∀ (m : List (String × α)) (k : String) (v : α), (k, v) ∈ setAssoc m k v := by
  intro m
  induction m with
  | nil => intro k v; simp [setAssoc]
  | cons hd tl ih =>
      intro k v
      obtain ⟨k', v'⟩ := hd
      by_cases hk : k' = k
      · subst hk; simp [setAssoc]
      · rw [setAssoc, if_neg hk]
        exact List.mem_cons_of_mem _ (ih k v)

theorem mem_setAssoc_of_ne {α : Type} :
    ∀ {m : List (String × α)} {kv : String × α}, kv ∈ m →
      ∀ {k : String} (v : α), kv.1 ≠ k → kv ∈ setAssoc m k v := by
  intro m
  induction m with
  | nil => intro kv h; simp at h
  | cons hd tl ih =>
      intro kv h k v hne
      obtain ⟨k', v'⟩ := hd
      rcases List.mem_cons.mp h with rfl | htl
      · rw [setAssoc, if_neg (by simpa using hne)]
        exact List.mem_cons_self _ _
      · by_cases hk : k' = k
        · rw [setAssoc, if_pos hk]
          exact List.mem_cons_of_mem _ htl
        · rw [setAssoc, if_neg hk]
          exact List.mem_cons_of_mem _ (ih htl v hne)

theorem mem_setAssoc_nodup {α : Type} :
    ∀ {m : List (String × α)}, (m.map Prod.fst).Nodup →
      ∀ {k : String} {v : α} {kv : String × α}, kv ∈ setAssoc m k v →
        kv = (k, v) ∨ (kv ∈ m ∧ kv.1 ≠ k) := by
  intro m
  induction m with
  | nil =>
      intro _ k v kv h
      simp [setAssoc] at h
      exact Or.inl h
  | cons hd tl ih =>
      intro hn k v kv h
      obtain ⟨k', v'⟩ := hd
      simp only [List.map_cons, List.nodup_cons] at hn
      obtain ⟨hk', htl⟩ := hn
      by_cases hk : k' = k
      · subst hk
        rw [setAssoc, if_pos rfl] at h
        rcases List.mem_cons.mp h with rfl | hmem
        · exact Or.inl rfl
        · refine Or.inr ⟨List.mem_cons_of_mem _ hmem, ?_⟩
          intro hkv
          exact hk' (by rw [← hkv]; exact List.mem_map_of_mem Prod.fst hmem)
      · rw [setAssoc, if_neg hk] at h
        rcases List.mem_cons.mp h with rfl | hmem
        · exact Or.inr ⟨List.mem_cons_self _ _, hk⟩
        · rcases ih htl hmem with h1 | ⟨h2, h3⟩
          · exact Or.inl h1
          · exact Or.inr ⟨List.mem_cons_of_mem _ h2, h3⟩

theorem map_fst_setAssoc_of_some {α : Type} :
    ∀ {m : List (String × α)} {k : String} {ex : α}, getAssoc m k = some ex →
      ∀ (v : α), (setAssoc m k v).map Prod.fst = m.map Prod.fst := by
  intro m
  induction m with
  | nil => intro k ex h; simp [getAssoc] at h
  | cons hd tl ih =>
      intro k ex h v
      obtain ⟨k', v'⟩ := hd
      by_cases hk : k' = k
      · rw [setAssoc, if_pos hk]; rfl
      · rw [getAssoc, if_neg hk] at h
        rw [setAssoc, if_neg hk, List.map_cons, List.map_cons, ih h]

theorem getAssoc_unique {α : Type} :
    ∀ {m : List (String × α)}, (m.map Prod.fst).Nodup →
      ∀ {k : String} {ex : α}, getAssoc m k = some ex →
        ∀ {kv : String × α}, kv ∈ m → kv.1 = k → kv.2 = ex := by
  intro m
  induction m with
  | nil => intro _ k ex h; simp [getAssoc] at h
  | cons hd tl ih =>
      intro hn k ex h kv hkv hk1
      obtain ⟨k', v'⟩ := hd
      simp only [List.map_cons, List.nodup_cons] at hn
      obtain ⟨hk', htl⟩ := hn
      by_cases hk : k' = k
      · subst hk
        rw [getAssoc, if_pos rfl] at h
        injection h with h
        subst h
        rcases List.mem_cons.mp hkv with rfl | hmem
        · rfl
        · exact absurd (by rw [← hk1]; exact List.mem_map_of_mem Prod.fst hmem) hk'
      · rw [getAssoc, if_neg hk] at h
        rcases List.mem_cons.mp hkv with rfl | hmem
        · exact absurd hk1 hk
        · exact ih htl h hmem hk1

theorem emexBestFold_inv {processed : List EmexItem}
    {m : List (String × EmexItem)} {it : EmexItem} (hinv : EmexInv processed m) :
    EmexInv (processed ++ [it]) (emexBestFold m it) := by
  obtain ⟨hnodup, hent, hcomp⟩ := hinv
  unfold emexBestFold
  cases hg : getAssoc m (emexKey it) with
  | none =>
      rw [setAssoc_of_none hg]
      have hfresh : ∀ kv ∈ m, kv.1 ≠ emexKey it := (getAssoc_none_iff m _).mp hg
      refine ⟨?_, ?_, ?_⟩
      · rw [List.map_append]
        rw [List.nodup_append]
        refine ⟨hnodup, by simp, ?_⟩
        intro a ha hb
        simp only [List.map_cons, List.map_nil, List.mem_singleton] at hb
        obtain ⟨kv, hkv, rfl⟩ := List.mem_map.mp ha
        exact hfresh kv hkv hb
      · intro kv hkv
        rcases List.mem_append.mp hkv with hold | hnew
        · obtain ⟨h1, h2, h3⟩ := hent kv hold
          refine ⟨h1, List.mem_append_left _ h2, ?_⟩
          intro o ho hko
          rcases List.mem_append.mp ho with ho' | ho'
          · exact h3 o ho' hko
          · rw [List.mem_singleton.mp ho'] at hko
            exact absurd hko.symm (Ne.symm (hfresh kv hold)).symm
        · rw [List.mem_singleton.mp hnew]
          refine ⟨rfl, List.mem_append_right _ (by simp), ?_⟩
          intro o ho hko
          rcases List.mem_append.mp ho with ho' | ho'
          · obtain ⟨kv', hkv', hkk⟩ := hcomp o ho'
            exact absurd (by rw [hkk, hko]) (hfresh kv' hkv')
          · rw [List.mem_singleton.mp ho']
      · intro o ho
        rcases List.mem_append.mp ho with ho' | ho'
        · obtain ⟨kv, hkv, hkk⟩ := hcomp o ho'
          exact ⟨kv, List.mem_append_left _ hkv, hkk⟩
        · rw [List.mem_singleton.mp ho']
          exact ⟨(emexKey it, it), List.mem_append_right _ (by simp), rfl⟩
  | some ex =>
      have hexmem : (emexKey it, ex) ∈ m := getAssoc_some_mem hg
      obtain ⟨hex1, hex2, hex3⟩ := hent _ hexmem
      show EmexInv (processed ++ [it])
        (if it.price < ex.price then setAssoc m (emexKey it) it else m)
      split
      next hlt =>
          refine ⟨?_, ?_, ?_⟩
          · rw [map_fst_setAssoc_of_some hg]
            exact hnodup
          · intro kv hkv
            rcases mem_setAssoc_nodup hnodup hkv with rfl | ⟨hold, hne⟩
            · refine ⟨rfl, List.mem_append_right _ (by simp), ?_⟩
              intro o ho hko
              rcases List.mem_append.mp ho with ho' | ho'
              · exact le_of_lt (lt_of_lt_of_le hlt (hex3 o ho' (by rw [hko])))
              · rw [List.mem_singleton.mp ho']
            · obtain ⟨h1, h2, h3⟩ := hent kv hold
              refine ⟨h1, List.mem_append_left _ h2, ?_⟩
              intro o ho hko
              rcases List.mem_append.mp ho with ho' | ho'
              · exact h3 o ho' hko
              · rw [List.mem_singleton.mp ho'] at hko
                exact absurd hko.symm hne
          · intro o ho
            rcases List.mem_append.mp ho with ho' | ho'
            · obtain ⟨kv, hkv, hkk⟩ := hcomp o ho'
              by_cases hkey : kv.1 = emexKey it
              · exact ⟨(emexKey it, it), self_mem_setAssoc m _ it, by rw [← hkey, hkk]⟩
              · exact ⟨kv, mem_setAssoc_of_ne hkv it hkey, hkk⟩
            · rw [List.mem_singleton.mp ho']
              exact ⟨(emexKey it, it), self_mem_setAssoc m _ it, rfl⟩
      next hlt =>
          refine ⟨hnodup, ?_, ?_⟩
          · intro kv hkv
            obtain ⟨h1, h2, h3⟩ := hent kv hkv
            refine ⟨h1, List.mem_append_left _ h2, ?_⟩
            intro o ho hko
            rcases List.mem_append.mp ho with ho' | ho'
            · exact h3 o ho' hko
            · rw [List.mem_singleton.mp ho'] at hko
              have hkv2 : kv.2 = ex := getAssoc_unique hnodup hg hkv (by rw [hko])
              rw [hkv2, List.mem_singleton.mp ho']
              exact le_of_not_lt hlt
          · intro o ho
            rcases List.mem_append.mp ho with ho' | ho'
            · exact hcomp o ho'
            · rw [List.mem_singleton.mp ho']
              exact ⟨(emexKey it, ex), hexmem, rfl⟩

theorem emexBest_foldl_inv :
    ∀ (items : List EmexItem) (m : List (String × EmexItem))
      (processed : List EmexItem), EmexInv processed m →
      EmexInv (processed ++ items) (items.foldl emexBestFold m) := by
  intro items
  induction items with
  | nil => intro m processed h; simpa using h
  | cons it rest ih =>
      intro m processed h
      rw [List.foldl_cons]
      have := ih (emexBestFold m it) (processed ++ [it]) (emexBestFold_inv h)
      simpa using this

/-- C10, amended: the Emex raw feed is deduplicated keeping, per
`(make, part-number)` key, an item of minimal price among the feed's items
with that key (no filtering against the normalized query and no
excluded-brand list exists in this pipeline); the Stimo raw feed is filtered
to in-stock rows before normalization — every emitted Stimo record comes from
an in-stock raw row. -/
theorem C10_amended :
    (∀ (items : List EmexItem) (it : EmexItem), it ∈ emexBest items →
      it ∈ items ∧ ∀ o ∈ items, emexKey o = emexKey it → it.price ≤ o.price) ∧
    (∀ (raws : List StimoItem) (r : ResultItem), r ∈ stimoNormalize raws →
      ∃ it, it ∈ raws ∧ it.inStock = true ∧ r = stimoTransform it) := by
  constructor
  · intro items it hmem
    have hinv := emexBest_foldl_inv items [] [] ⟨by simp, by simp, by simp⟩
    rw [List.nil_append] at hinv
    unfold emexBest at hmem
    obtain ⟨kv, hkv, hkv2⟩ := List.mem_map.mp hmem
    obtain ⟨-, h2, -⟩ := hinv
    obtain ⟨hk1, hk2, hk3⟩ := h2 kv hkv
    subst hkv2
    exact ⟨hk2, fun o ho hko => hk3 o ho (by rw [hko, hk1])⟩
  · intro raws r hr
    unfold stimoNormalize at hr
    obtain ⟨it, hit, hr2⟩ := List.mem_map.mp hr
    obtain ⟨hmem, hstock⟩ := List.mem_filter.mp hit
    exact ⟨it, hmem, by simpa using hstock, hr2.symm⟩

theorem C10_witness :
    (({ make := "TOYOTA", number := "A1", price := 10 } : EmexItem) ∈
        [({ make := "TOYOTA", number := "A1", price := 10 } : EmexItem)] ∧
      ∀ o ∈ [({ make := "TOYOTA", number := "A1", price := 10 } : EmexItem)],
        emexKey o = emexKey ({ make := "TOYOTA", number := "A1", price := 10 } : EmexItem) →
        ({ make := "TOYOTA", number := "A1", price := 10 } : EmexItem).price ≤ o.price) :=
  C10_amended.1 [{ make := "TOYOTA", number := "A1", price := 10 }]
    { make := "TOYOTA", number := "A1", price := 10 }
    (by rw [show emexBest [({ make := "TOYOTA", number := "A1", price := 10 } : EmexItem)] =
          [{ make := "TOYOTA", number := "A1", price := 10 }] from rfl]
        exact List.mem_singleton_self _)

/-- C10, counterexample: the claim describes the Emex feed as filtered to
items whose normalized part number equals the normalized query, with an
excluded-brand list, deduplicated per brand — but the code keys the
deduplication map on `make_number` and has no query or brand filter at all:
two same-brand items with different part numbers both survive, whatever the
query was. -/
theorem C10_counterexample :
    (emexBest
        [{ make := "TOYOTA", number := "A1", price := 10 },
         { make := "TOYOTA", number := "B2", price := 20 }]).length = 2 ∧
    ({ make := "TOYOTA", number := "A1", price := (10 : ℚ) } : EmexItem).make =
      ({ make := "TOYOTA", number := "B2", price := 20 } : EmexItem).make ∧
    ({ make := "TOYOTA", number := "A1", price := (10 : ℚ) } : EmexItem).number ≠
      ({ make := "TOYOTA", number := "B2", price := 20 } : EmexItem).number :=
  ⟨rfl, rfl, by decide⟩

theorem insertionSort_head_min {α : Type} (r : α → α → Prop) [DecidableRel r]
    [IsTotal α r] [IsTrans α r] {l : List α} {c : α}
    (h : (List.insertionSort r l).head? = some c) : c ∈ l ∧ ∀ o ∈ l, r c o := by
  have hs := List.sorted_insertionSort r l
  have hp := List.perm_insertionSort r l
  cases hsort : List.insertionSort r l with
  | nil => rw [hsort] at h; simp at h
  | cons a t =>
      rw [hsort] at h hs hp
      have hac : a = c := by simpa using h
      subst hac
      refine ⟨hp.mem_iff.mp (List.mem_cons_self _ _), ?_⟩
      intro o ho
      have ho2 : o ∈ a :: t := hp.mem_iff.mpr ho
      rcases List.mem_cons.mp ho2 with h2 | h2
      · subst h2
        rcases total_of r o o with h3 | h3 <;> exact h3
      · exact (List.sorted_cons.mp hs).1 o h2

theorem thunderBuildRows_two (options : List TOption)
    (oem name brand : Option String) (w : ℚ) (pn : String) (c f : TOption)
    (hc : (thunderByPrice options).head? = some c)
    (hf : (thunderByDays options).head? = some f)
    (hg : f.label ≠ c.label ∧ f.days.getD 0 < jsOrDays c.days 999) :
    thunderBuildRows options oem name brand w pn =
      [thunderCheapRow oem name brand w pn c, thunderFastRow oem name brand w pn f] := by
  unfold thunderBuildRows
  rw [hc, hf]
  simp [hg]

theorem thunderBuildRows_one_noFast (options : List TOption)
    (oem name brand : Option String) (w : ℚ) (pn : String) (c : TOption)
    (hc : (thunderByPrice options).head? = some c)
    (hf : (thunderByDays options).head? = none) :
    thunderBuildRows options oem name brand w pn =
      [thunderCheapRow oem name brand w pn c] := by
  unfold thunderBuildRows
  rw [hc, hf]
  simp

theorem thunderBuildRows_one_guardFail (options : List TOption)
    (oem name brand : Option String) (w : ℚ) (pn : String) (c f : TOption)
    (hc : (thunderByPrice options).head? = some c)
    (hf : (thunderByDays options).head? = some f)
    (hg : ¬(f.label ≠ c.label ∧ f.days.getD 0 < jsOrDays c.days 999)) :
    thunderBuildRows options oem name brand w pn =
      [thunderCheapRow oem name brand w pn c] := by
  unfold thunderBuildRows
  rw [hc, hf]
  simp [hg]

/-- C8, amended: whenever the availability scan produced at least one priced
labelled option, the built result list starts with the row of a
minimal-price option (tagged with its label), holds at most two rows, and a
second row — tagged with the fastest option's label — exists only when that
option's label differs from the cheapest's and its lead time is below
`cheapest.days || 999` (so "strictly faster than the cheapest" only when the
cheapest's lead time is a positive number; a null or `0` lead time on the
cheapest compares as 999). -/
theorem C8_amended (av : List String) (oem name brand : Option String)
    (w : ℚ) (pn : String) (h : thunderScan av ≠ []) :
    ∃ c, (thunderByPrice (thunderScan av)).head? = some c ∧
      c ∈ thunderScan av ∧ (∀ o ∈ thunderScan av, c.price ≤ o.price) ∧
      (thunderBuildRows (thunderScan av) oem name brand w pn).head? =
        some (thunderCheapRow oem name brand w pn c) ∧
      (thunderBuildRows (thunderScan av) oem name brand w pn).length ≤ 2 ∧
      ∀ r2, (thunderBuildRows (thunderScan av) oem name brand w pn).drop 1 = [r2] →
        ∃ f, (thunderByDays (thunderScan av)).head? = some f ∧
          f ∈ thunderScan av ∧ f.days ≠ none ∧
          (∀ o ∈ thunderScan av, o.days ≠ none → f.days.getD 0 ≤ o.days.getD 0) ∧
          f.label ≠ c.label ∧ f.days.getD 0 < jsOrDays c.days 999 ∧
          r2 = thunderFastRow oem name brand w pn f := by
  have hne : thunderByPrice (thunderScan av) ≠ [] := by
    intro hnil
    have hp := List.perm_insertionSort optPriceLE (thunderScan av)
    rw [show List.insertionSort optPriceLE (thunderScan av) =
          thunderByPrice (thunderScan av) from rfl, hnil] at hp
    exact h (List.length_eq_zero.mp (by simpa using hp.length_eq.symm))
  obtain ⟨c, hc⟩ : ∃ c, (thunderByPrice (thunderScan av)).head? = some c := by
    cases hx : thunderByPrice (thunderScan av) with
    | nil => exact absurd hx hne
    | cons a t => exact ⟨a, rfl⟩
  have hmin : c ∈ thunderScan av ∧ ∀ o ∈ thunderScan av, optPriceLE c o :=
    insertionSort_head_min optPriceLE hc
  refine ⟨c, hc, hmin.1, fun o ho => hmin.2 o ho, ?_⟩
  cases hbd : (thunderByDays (thunderScan av)).head? with
  | none =>
      rw [thunderBuildRows_one_noFast _ _ _ _ _ _ _ hc hbd]
      refine ⟨rfl, by simp, ?_⟩
      intro r2 hr2
      simp at hr2
  | some f =>
      by_cases hg : f.label ≠ c.label ∧ f.days.getD 0 < jsOrDays c.days 999
      · rw [thunderBuildRows_two _ _ _ _ _ _ _ _ hc hbd hg]
        refine ⟨rfl, by simp, ?_⟩
        intro r2 hr2
        simp only [List.drop_succ_cons, List.drop_zero, List.cons.injEq] at hr2
        have hfmin := insertionSort_head_min optDaysLE
          (l := (thunderScan av).filter (fun o => o.days ≠ none)) (c := f) hbd
        obtain ⟨hfm, hfall⟩ := hfmin
        have hfmem := List.mem_filter.mp hfm
        refine ⟨f, rfl, hfmem.1, by simpa using hfmem.2, ?_, hg.1, hg.2, hr2.1.symm⟩
        intro o ho hod
        exact hfall o (List.mem_filter.mpr ⟨ho, by simpa using hod⟩)
      · rw [thunderBuildRows_one_guardFail _ _ _ _ _ _ _ _ hc hbd hg]
        refine ⟨rfl, by simp, ?_⟩
        intro r2 hr2
        simp at hr2

theorem C8_witness :
    thunderScan ["Поръчка", "20.00", "0", "Поръчка 1", "10.00", "0"] ≠ [] ∧
    ∃ c, (thunderByPrice (thunderScan ["Поръчка", "20.00", "0", "Поръчка 1", "10.00", "0"])).head? = some c ∧
      c ∈ thunderScan ["Поръчка", "20.00", "0", "Поръчка 1", "10.00", "0"] ∧
      (∀ o ∈ thunderScan ["Поръчка", "20.00", "0", "Поръчка 1", "10.00", "0"], c.price ≤ o.price) ∧
      (thunderBuildRows (thunderScan ["Поръчка", "20.00", "0", "Поръчка 1", "10.00", "0"])
          none none none 0 "abc").head? = some (thunderCheapRow none none none 0 "abc" c) ∧
      (thunderBuildRows (thunderScan ["Поръчка", "20.00", "0", "Поръчка 1", "10.00", "0"])
          none none none 0 "abc").length ≤ 2 ∧
      ∀ r2, (thunderBuildRows (thunderScan ["Поръчка", "20.00", "0", "Поръчка 1", "10.00", "0"])
          none none none 0 "abc").drop 1 = [r2] →
        ∃ f, (thunderByDays (thunderScan ["Поръчка", "20.00", "0", "Поръчка 1", "10.00", "0"])).head? = some f ∧
          f ∈ thunderScan ["Поръчка", "20.00", "0", "Поръчка 1", "10.00", "0"] ∧ f.days ≠ none ∧
          (∀ o ∈ thunderScan ["Поръчка", "20.00", "0", "Поръчка 1", "10.00", "0"], o.days ≠ none →
            f.days.getD 0 ≤ o.days.getD 0) ∧
          f.label ≠ c.label ∧ f.days.getD 0 < jsOrDays c.days 999 ∧
          r2 = thunderFastRow none none none 0 "abc" f :=
  ⟨by simp +decide [thunderScan, scanWin, jsParseFloatD, jsParseFloat, takeDigits, digitsToNat],
    C8_amended ["Поръчка", "20.00", "0", "Поръчка 1", "10.00", "0"] none none none 0 "abc"
      (by simp +decide [thunderScan, scanWin, jsParseFloatD, jsParseFloat, takeDigits, digitsToNat])⟩

/-- C8, counterexample: the claim allows a second row only when a distinct
option is strictly faster (fewer lead-time days) than the cheapest.  For the
availability tokens below both options carry a lead time of `0` days, so
neither is strictly faster than the other — yet the code emits two rows,
because the comparison is `fastest.days < (cheapest.days || 999)` and a
cheapest lead time of `0` is falsy, comparing as `999`. -/
theorem C8_counterexample :
    thunderScan ["Поръчка", "20.00", "0", "Поръчка 1", "10.00", "0"] =
      [⟨"Поръчка", 20, some 0⟩, ⟨"Поръчка 1", 10, some 0⟩] ∧
    (thunderBuildRows (thunderScan ["Поръчка", "20.00", "0", "Поръчка 1", "10.00", "0"])
        none none none 0 "abc").map (fun r => (r.thunderOption, r.supplierName)) =
      [(some "Поръчка 1", "Тандер"), (some "Поръчка", "Тандер (бърза)")] := by
  have hscan : thunderScan ["Поръчка", "20.00", "0", "Поръчка 1", "10.00", "0"] =
      [⟨"Поръчка", 20, some 0⟩, ⟨"Поръчка 1", 10, some 0⟩] := by
    simp +decide [thunderScan, scanWin, jsParseFloatD, jsParseFloat, takeDigits, digitsToNat]
  refine ⟨hscan, ?_⟩
  rw [hscan]
  simp +decide [thunderBuildRows, thunderByPrice, thunderByDays, thunderReduceMin,
    List.insertionSort, List.orderedInsert, optPriceLE, optDaysLE, jsOrDays,
    thunderCheapRow, thunderFastRow, jsOrStr]

end AutoFix
